import Mathlib

/-!
Shallow embedding of the core of the bedrocklinux userland C sources
(src/crossfs/crossfs.c, src/etcfs/etcfs.c, src/strat/strat.c,
src/bouncer/bouncer.c) together with theorems checking the repository's
natural-language specification against that code.

Strings are modelled as `List Char` (the C code uses NUL-terminated byte
strings whose commands and paths are NUL-free); file byte contents are
modelled as `List Char` as well.  Machine integers that can go negative
(`off_t` sizes, errno-style return values) are modelled as `Int`.
-/

namespace Bedrock

/-- PATH_MAX on Linux. -/
def PATH_MAX : Nat := 4096

/-- PIPE_BUF on Linux. -/
def PIPE_BUF : Nat := 4096

def ENOENT : Int := 2
def ENOMEM : Int := 12
def EACCES : Int := 13
def EINVAL : Int := 22
def EROFS : Int := 30
def EMLINK : Int := 31
def ENAMETOOLONG : Int := 36

/-- Convenience: character list of a string literal. -/
def cs (s : String) : List Char := s.toList

/-! ## Path utilities (crossfs.c is_parent / is_equal_or_parent / pstrcmp)

The C functions receive `(ptr, len)` pairs for NUL-terminated strings.
`b[a_len]` for `a_len = b_len` reads the terminating NUL, which we model by
`List.get?` returning `none` exactly at the end of the list. -/

/-- Embeds crossfs.c `is_parent`: non-zero iff path a is a strict ancestor
directory of path b. -/
def is_parent (a b : List Char) : Bool :=
  if b.length ≤ a.length then false
  else if b[a.length]? ≠ some '/' then false
  else b.take a.length == a

/-- Embeds crossfs.c `is_equal_or_parent`: non-zero iff a equals b or is a
strict ancestor directory of b.  `b[a_len]` is the NUL terminator exactly
when the lengths agree. -/
def is_equal_or_parent (a b : List Char) : Bool :=
  if b.length < a.length then false
  else if a.length ≠ b.length ∧ b[a.length]? ≠ some '/' then false
  else b.take a.length == a

/-! ## crossfs configuration data model -/

/-- The closed set of crossfs content filters (crossfs.c `enum filter`). -/
inductive Filter
  | bin
  | binRestrict
  | ini
  | font
  | service
  | pass
deriving DecidableEq, Repr, Inhabited

/-- crossfs.c `filter_str` array. -/
def filterStr : Filter → List Char
  | .bin => cs "bin"
  | .binRestrict => cs "bin-restrict"
  | .ini => cs "ini"
  | .font => cs "font"
  | .service => cs "service"
  | .pass => cs "pass"

/-- The order of crossfs.c `filter_str`, used by the linear scan in
`cfg_add` that maps the filter token to an `enum filter`. -/
def filterList : List Filter :=
  [.bin, .binRestrict, .ini, .font, .service, .pass]

/-- crossfs.c `struct back_entry`.  The stratum root file descriptor is not
modelled: backing-filesystem access is abstracted by oracles keyed on the
(dereferenced) stratum name. -/
structure BackEntry where
  lpath : List Char
  aliasName : List Char
  localFlag : Bool
deriving DecidableEq, Repr, Inhabited

/-- crossfs.c `struct cfg_entry`. -/
structure CfgEntry where
  filter : Filter
  cpath : List Char
  back : List BackEntry
deriving DecidableEq, Repr, Inhabited

/-- crossfs.c `deref`: a back entry with the local flag resolves to the
calling process' stratum, otherwise to its stored alias. -/
def deref (localName : List Char) (b : BackEntry) : List Char :=
  if b.localFlag then localName else b.aliasName

/-! ## ipath classification (crossfs.c classify_ipath) -/

/-- crossfs.c `enum ipath_class`. -/
inductive IpathClass
  | back
  | vdir
  | root
  | cfg
  | localAlias
  | enoent
deriving DecidableEq, Repr, Inhabited

/-- crossfs.c CFG_PATH. -/
def CFG_PATH : List Char := cs "/.bedrock-config-filesystem"

/-- crossfs.c LOCAL_ALIAS_PATH. -/
def LOCAL_ALIAS_PATH : List Char := cs "/.local-alias"

/-- Embeds crossfs.c `classify_ipath`.  Returns the class together with the
matched cfg entry (the C code writes it through the out-parameter for the
BACK and VDIR classes).  `ipath[0]=='/' && ipath[1]=='\0'` is the test for
the one-character path "/". -/
def classify_ipath (cfgs : List CfgEntry) (ipath : List Char) :
    IpathClass × Option CfgEntry :=
  match cfgs.find? (fun c => is_equal_or_parent c.cpath ipath) with
  | some c => (.back, some c)
  | none =>
    match cfgs.find? (fun c => is_parent ipath c.cpath) with
    | some c => (.vdir, some c)
    | none =>
      if ipath = ['/'] then (.root, none)
      else if ipath = CFG_PATH then (.cfg, none)
      else if ipath = LOCAL_ALIAS_PATH then (.localAlias, none)
      else (.enoent, none)

/-- Specification-side classification, written from the spec's words: BACK
if some configured cpath is equal to or a parent of the ipath; otherwise
VDIR if the ipath is a strict parent of some configured cpath; otherwise
ROOT for "/"; otherwise CFG for the config-file path; otherwise LOCAL for
the local-alias path; otherwise ENOENT. -/
def spec_classify (cfgs : List CfgEntry) (ipath : List Char) : IpathClass :=
  if cfgs.any (fun c => is_equal_or_parent c.cpath ipath) then .back
  else if cfgs.any (fun c => is_parent ipath c.cpath) then .vdir
  else if ipath = ['/'] then .root
  else if ipath = CFG_PATH then .cfg
  else if ipath = LOCAL_ALIAS_PATH then .localAlias
  else .enoent

/-! ## calc_bpath (crossfs.c) -/

/-- Embeds crossfs.c `calc_bpath`.  `ipath[cpath_len]` is the NUL
terminator exactly when the lengths agree (first guard rules out
`ipath_len < cpath_len`).  The overflow guard mirrors
`lpath_len + ipath_len - cpath_len + 1 > PATH_MAX` (the +1 is the NUL). -/
def calc_bpath (cpath lpath ipath : List Char) : Option (List Char) :=
  if ipath.length < cpath.length then none
  else if ipath.length = cpath.length then some lpath
  else if ipath[cpath.length]? ≠ some '/' then none
  else if lpath.length + (ipath.length - cpath.length) + 1 > PATH_MAX then none
  else some (lpath ++ ipath.drop cpath.length)

/-- Helper: a successful find? witnesses any. -/
theorem any_of_find?_eq_some {p : α → Bool} {l : List α} {c : α}
    (h : l.find? p = some c) : l.any p = true :=
  List.any_eq_true.mpr ⟨c, List.mem_of_find?_eq_some h, List.find?_some h⟩

/-- Helper: a failed find? refutes any. -/
theorem any_of_find?_eq_none {p : α → Bool} {l : List α}
    (h : l.find? p = none) : l.any p = false := by
  rw [List.find?_eq_none] at h
  simp only [List.any_eq_false]
  intro x hx
  simp [h x hx]

/-- C2: crossfs ipath classification is a total function assigning every
incoming path exactly one class, in the precedence order CLASS_BACK (some
cpath equal to or parent of ipath), then CLASS_VDIR (ipath strict parent of
some cpath), then CLASS_ROOT ("/"), CLASS_CFG (config path), CLASS_LOCAL
(local-alias path), CLASS_ENOENT.  The embedded `classify_ipath` agrees
with the specification-side `spec_classify` on every config and path. -/
theorem classify_ipath_spec (cfgs : List CfgEntry) (ipath : List Char) :
    (classify_ipath cfgs ipath).1 = spec_classify cfgs ipath := by
  unfold classify_ipath spec_classify
  cases h1 : cfgs.find? (fun c => is_equal_or_parent c.cpath ipath) with
  | some c => simp [any_of_find?_eq_some h1]
  | none =>
    cases h2 : cfgs.find? (fun c => is_parent ipath c.cpath) with
    | some c => simp [any_of_find?_eq_none h1, any_of_find?_eq_some h2]
    | none =>
      simp only [any_of_find?_eq_none h1, any_of_find?_eq_none h2,
        Bool.false_eq_true, if_false]
      by_cases h3 : ipath = ['/'] <;> by_cases h4 : ipath = CFG_PATH <;>
        by_cases h5 : ipath = LOCAL_ALIAS_PATH <;> simp [h3, h4, h5] <;> decide

/-- C6: for an ipath classified CLASS_BACK for a cfg entry (its cpath is
equal to or a parent of the ipath), `calc_bpath` returns the back entry's
lpath when the ipath equals the cpath; otherwise the ipath's character at
cpath_len is necessarily '/', and it returns the lpath concatenated with
the ipath suffix from cpath_len, failing (NULL) exactly when the
concatenation (with its NUL) would exceed PATH_MAX. -/
theorem calc_bpath_of_class_back (cpath lpath ipath : List Char)
    (h : is_equal_or_parent cpath ipath = true) :
    calc_bpath cpath lpath ipath =
      if ipath = cpath then some lpath
      else if lpath.length + (ipath.length - cpath.length) + 1 > PATH_MAX then
        none
      else some (lpath ++ ipath.drop cpath.length) := by
  unfold is_equal_or_parent at h
  split at h
  · exact absurd h (by simp)
  · split at h
    · exact absurd h (by simp)
    · rename_i hlen hmid
      have htake : ipath.take cpath.length = cpath := by
        simpa using h
      push_neg at hmid
      by_cases heq : cpath.length = ipath.length
      · have hip : ipath = cpath := by
          rw [← htake, List.take_of_length_le (le_of_eq heq.symm)]
        unfold calc_bpath
        simp [hip, heq.symm]
      · have hlt : cpath.length < ipath.length := by omega
        have hslash : ipath[cpath.length]? = some '/' := hmid heq
        have hne : ipath ≠ cpath := by
          intro hc
          exact heq (by rw [hc])
        unfold calc_bpath
        rw [if_neg (by omega), if_neg (by omega), if_neg (by simp [hslash])]
        rw [if_neg hne]

/-- Witness for C6 at a concrete input: cpath "/bin", lpath "/usr/bin",
ipath "/bin/vim". -/
theorem calc_bpath_of_class_back_witness :
    is_equal_or_parent (cs "/bin") (cs "/bin/vim") = true ∧
    calc_bpath (cs "/bin") (cs "/usr/bin") (cs "/bin/vim") =
      if cs "/bin/vim" = cs "/bin" then some (cs "/usr/bin")
      else if (cs "/usr/bin").length +
          ((cs "/bin/vim").length - (cs "/bin").length) + 1 > PATH_MAX then
        none
      else some (cs "/usr/bin" ++ (cs "/bin/vim").drop (cs "/bin").length) :=
  ⟨by decide, calc_bpath_of_class_back (cs "/bin") (cs "/usr/bin")
    (cs "/bin/vim") (by decide)⟩

/-! ## etcfs inject / uninject (etcfs.c)

File contents are byte lists, modelled as `List Char`.  etcfs.c
`file_search` is a chunked memmem-based substring search; it reports
whether the search string occurs in the file.  The search loop in
`uninject` (chunks of `2*inject_len` at stride `inject_len`, `strstr` per
chunk, `offset = (start - buf) + multiple*inject_len`) computes the offset
of the first occurrence of the search string in the file, which is what
`firstOcc` below computes directly. -/

/-- Whether `pat` occurs in `l` at offset `p`. -/
def occursAt (l pat : List Char) (p : Nat) : Bool :=
  (l.drop p).take pat.length == pat

/-- Scan for the first occurrence of `pat` at offsets `p, p+1, ...`,
with explicit fuel. -/
def firstOccAux (l pat : List Char) : Nat → Nat → Option Nat
  | 0, _ => none
  | fuel + 1, p =>
    if occursAt l pat p then some p else firstOccAux l pat fuel (p + 1)

/-- Offset of the first occurrence of `pat` in `l`, if any. -/
def firstOcc (l pat : List Char) : Option Nat :=
  firstOccAux l pat (l.length + 1) 0

/-- Embeds etcfs.c `inject`: ensure the file contains the inject bytes.
Empty files are skipped; files that already contain the bytes
(`init_len >= inject_len && file_search(...)`) are skipped; otherwise the
bytes are appended (copy to a temp file, append, rename over the
original — the on-disk result is the concatenation). -/
def inject (file inj : List Char) : List Char :=
  if file.length = 0 then file
  else if inj.length ≤ file.length ∧ (firstOcc file inj).isSome then file
  else file ++ inj

/-- Embeds etcfs.c `uninject`: remove up to one instance of the inject
bytes.  Files shorter than the inject bytes are skipped; otherwise the
search loop locates the first occurrence (offset `p`), and the copy,
truncate to `orig_size - inject_len`, and tail-shift from `p + inject_len`
into position `p` produce exactly the file with that occurrence removed.
(With an empty inject string the C loop reads zero bytes and finds
nothing; the `p = 0` removal of zero bytes below is the same no-op.) -/
def uninject (file inj : List Char) : List Char :=
  if file.length < inj.length then file
  else
    match firstOcc file inj with
    | none => file
    | some p => file.take p ++ file.drop (p + inj.length)

/-- Helper: what a successful firstOccAux scan guarantees: an occurrence
at the result, at or after the start offset, and at no earlier offset at
or after the start. -/
theorem firstOccAux_eq_some {l pat : List Char} :
    ∀ (fuel p q : Nat), firstOccAux l pat fuel p = some q →
      occursAt l pat q = true ∧ p ≤ q ∧
        ∀ r, p ≤ r → r < q → occursAt l pat r = false := by
  intro fuel
  induction fuel with
  | zero => intro p q h; simp [firstOccAux] at h
  | succ n ih =>
    intro p q h
    unfold firstOccAux at h
    by_cases hq : occursAt l pat p
    · rw [if_pos hq] at h
      cases h
      exact ⟨hq, le_refl _, fun r h1 h2 => absurd (lt_of_le_of_lt h1 h2)
        (lt_irrefl _)⟩
    · rw [if_neg hq] at h
      obtain ⟨ho, hpq, hmin⟩ := ih (p + 1) q h
      refine ⟨ho, by omega, fun r h1 h2 => ?_⟩
      by_cases hr : r = p
      · subst hr
        simpa using hq
      · exact hmin r (by omega) h2

/-- Helper: an occurrence inside `f` is an occurrence inside `f ++ i`. -/
theorem occursAt_append_left {f i : List Char} {q : Nat}
    (h : q + i.length ≤ f.length) (ho : occursAt f i q = true) :
    occursAt (f ++ i) i q = true := by
  unfold occursAt at ho ⊢
  rw [List.drop_append_eq_append_drop, Nat.sub_eq_zero_of_le (by omega),
    List.drop_zero, List.take_append_eq_append_take,
    Nat.sub_eq_zero_of_le (by simp [List.length_drop]; omega),
    List.take_zero, List.append_nil]
  exact ho

/-- C3 counterexample: a file that already holds the inject byte sequence.
`inject` skips it (content already present) while `uninject` removes the
existing occurrence, so the roundtrip does not restore the original. -/
theorem inject_uninject_counterexample :
    uninject (inject (cs "b") (cs "b")) (cs "b") ≠ cs "b" := by decide

/-- C3 amended: applying inject then uninject restores the original bytes
provided the original file is empty, or the earliest occurrence of the
inject sequence in (original ++ inject) begins exactly at offset
length(original) — in particular the original must not already contain the
inject sequence, and no overlap across the append boundary may create an
earlier occurrence. -/
theorem inject_uninject_roundtrip (file inj : List Char)
    (h : file = [] ∨ firstOcc (file ++ inj) inj = some file.length) :
    uninject (inject file inj) inj = file := by
  by_cases hf : file = []
  · subst hf
    by_cases hi : inj = []
    · subst hi; decide
    · have hlen : 0 < inj.length := List.length_pos.mpr hi
      simp [inject, uninject, hlen]
  · have h2 : firstOcc (file ++ inj) inj = some file.length := by
      rcases h with h | h
      · exact absurd h hf
      · exact h
    have hflen : 0 < file.length := List.length_pos.mpr hf
    obtain ⟨hocc, -, hmin⟩ := firstOccAux_eq_some _ _ _ h2
    have hmin0 : ∀ r, r < file.length → occursAt (file ++ inj) inj r = false :=
      fun r hr => hmin r (Nat.zero_le r) hr
    have hinil : inj ≠ [] := by
      intro hi
      subst hi
      have h0 : occursAt (file ++ []) [] 0 = true := by
        simp [occursAt]
      rw [hmin0 0 hflen] at h0
      exact Bool.false_ne_true h0
    have hilen : 0 < inj.length := List.length_pos.mpr hinil
    have hnotc : ¬(inj.length ≤ file.length ∧ (firstOcc file inj).isSome) := by
      rintro ⟨hle, hsome⟩
      obtain ⟨q, hq⟩ := Option.isSome_iff_exists.mp hsome
      obtain ⟨hoccq, -, -⟩ := firstOccAux_eq_some _ _ _ hq
      have hqeq : (file.drop q).take inj.length = inj := by
        simpa [occursAt] using hoccq
      have hlenq := congrArg List.length hqeq
      simp only [List.length_take, List.length_drop] at hlenq
      have hqb : q + inj.length ≤ file.length := by omega
      have hlift := occursAt_append_left hqb hoccq
      rw [hmin0 q (by omega)] at hlift
      exact Bool.false_ne_true hlift
    rw [inject, if_neg (by omega), if_neg hnotc]
    unfold uninject
    rw [if_neg (by simp only [List.length_append]; omega), h2]
    simp only []
    rw [List.take_append_eq_append_take, Nat.sub_self, List.take_zero,
      List.take_length, List.append_nil,
      List.drop_eq_nil_iff.mpr (by simp only [List.length_append]; omega),
      List.append_nil]

/-- Witness for C3 amended at a concrete input: file "a", inject "b";
the first occurrence of "b" in "ab" is at offset 1 = length "a". -/
theorem inject_uninject_roundtrip_witness :
    (cs "a" = [] ∨ firstOcc (cs "a" ++ cs "b") (cs "b") =
      some (cs "a").length) ∧
    uninject (inject (cs "a") (cs "b")) (cs "b") = cs "a" :=
  ⟨Or.inr (by decide),
    inject_uninject_roundtrip (cs "a") (cs "b") (Or.inr (by decide))⟩

/-! ## sscanf-style tokenization

Both config filesystems parse commands with sscanf.  crossfs `cfg_add` and
`cfg_rm` use the format `"%s%c%s%c%s%c%[^:]:%s%c"`; etcfs uses
`"%s%c%s%c"` and `"%s%c%s%c%s%c%s%c"`.  `%s` skips leading whitespace then
reads a maximal nonempty run of non-whitespace; `%c` reads one character;
`%[^:]` reads a maximal nonempty run of characters other than ':' without
skipping whitespace; a literal ':' matches itself.  A failed directive
stops the scan, making the conversion count fall short. -/

/-- C `isspace` characters. -/
def isSp (c : Char) : Bool :=
  c = ' ' ∨ c = '\t' ∨ c = '\n' ∨ c = '\x0b' ∨ c = '\x0c' ∨ c = '\r'

/-- sscanf `%s`: skip whitespace, read a nonempty non-whitespace token. -/
def readTok (s : List Char) : Option (List Char × List Char) :=
  let s1 := s.dropWhile isSp
  let t := s1.takeWhile (fun c => !isSp c)
  if t.isEmpty then none else some (t, s1.drop t.length)

/-- sscanf `%c`: read one character. -/
def readCh : List Char → Option (Char × List Char)
  | [] => none
  | c :: r => some (c, r)

/-- sscanf `%[^:]`: read a nonempty run of non-colon characters. -/
def readNonColon (s : List Char) : Option (List Char × List Char) :=
  let t := s.takeWhile (fun c => c != ':')
  if t.isEmpty then none else some (t, s.drop t.length)

/-- sscanf literal ':' in the format string. -/
def expectColon (s : List Char) : Option (List Char) :=
  match s with
  | c :: r => if c = ':' then some r else none
  | [] => none

/-- The nine tokens scanned by crossfs `cfg_add` / `cfg_rm`. -/
structure AddTokens where
  cmdTok : List Char
  sp1 : Char
  filterTok : List Char
  sp2 : Char
  cpathTok : List Char
  sp3 : Char
  stratumTok : List Char
  lpathTok : List Char
  newlineTok : Char
deriving DecidableEq, Repr

/-- The full `"%s%c%s%c%s%c%[^:]:%s%c"` scan (9 conversions or failure). -/
def parse9 (s0 : List Char) : Option AddTokens :=
  (readTok s0).bind fun p1 =>
  (readCh p1.2).bind fun q1 =>
  (readTok q1.2).bind fun p2 =>
  (readCh p2.2).bind fun q2 =>
  (readTok q2.2).bind fun p3 =>
  (readCh p3.2).bind fun q3 =>
  (readNonColon q3.2).bind fun p4 =>
  (expectColon p4.2).bind fun s8 =>
  (readTok s8).bind fun p5 =>
  (readCh p5.2).map fun q5 =>
    AddTokens.mk p1.1 q1.1 p2.1 q2.1 p3.1 q3.1 p4.1 p5.1 q5.1

/-- crossfs `cfg_add`'s scan of `filter_str` for the filter token. -/
def lookupFilter (tok : List Char) : Option Filter :=
  filterList.find? (fun f => filterStr f == tok)

/-! ## crossfs configuration state machine (cfg_clear / cfg_add / cfg_rm /
cfg_read and the m_write dispatch) -/

/-- The crossfs configuration state guarded by cfg_lock: the cfg_entry
array and the synchronously maintained `cfg_stat.st_size`. -/
structure CrossCfg where
  cfgs : List CfgEntry
  size : Int
deriving DecidableEq, Repr, Inhabited

/-- State at mount time: no entries, `cfg_stat.st_size = 0` (crossfs
main). -/
def initCrossCfg : CrossCfg := ⟨[], 0⟩

/-- Swap-removal used by `cfg_rm`: overwrite slot j with the final element
and shrink by one (`*back = back[cnt-1]; cnt--`, skipping the copy when j
is already last). -/
def removeSwap (l : List α) (j : Nat) : List α :=
  match l.getLast? with
  | none => []
  | some x => (l.set j x).dropLast

/-- First index satisfying a predicate (the C linear search loops). -/
def idxOf? (p : α → Bool) : List α → Option Nat
  | [] => none
  | a :: l => if p a then some 0 else (idxOf? p l).map (· + 1)

/-- Embeds crossfs.c `cfg_add`.  Stratum root file descriptors are not
modelled (their open always succeeds in the model; an fchroot_open failure
would return -ENOMEM, an unsuccessful command).  The returned Int is the
FUSE write return value: the full written size on success, a negative
errno otherwise. -/
def cfg_add (st : CrossCfg) (buf : List Char) : Int × CrossCfg :=
  if buf.length > PIPE_BUF - 1 then (-ENAMETOOLONG, st)
  else
    match parse9 buf with
    | none => (-EINVAL, st)
    | some t =>
      if t.cmdTok ≠ cs "add" ∨ t.cpathTok.head? ≠ some '/' ∨
          t.lpathTok.head? ≠ some '/' ∨ t.sp1 ≠ ' ' ∨ t.sp2 ≠ ' ' ∨
          t.sp3 ≠ ' ' ∨ t.newlineTok ≠ '\n' ∨ '/' ∈ t.stratumTok then
        (-EINVAL, st)
      else
        match lookupFilter t.filterTok with
        | none => (-EINVAL, st)
        | some f =>
          let found := idxOf? (fun c => c.cpath == t.cpathTok) st.cfgs
          let cfgs1 :=
            match found with
            | some _ => st.cfgs
            | none => st.cfgs ++ [CfgEntry.mk f t.cpathTok []]
          let i :=
            match found with
            | some i => i
            | none => st.cfgs.length
          let entry := cfgs1.getD i default
          if entry.back.any
              (fun b => b.aliasName == t.stratumTok && b.lpath == t.lpathTok)
          then ((buf.length : Int), { st with cfgs := cfgs1 })
          else
            let nb : BackEntry :=
              ⟨t.lpathTok, t.stratumTok, t.stratumTok == cs "local"⟩
            ((buf.length : Int),
              ⟨cfgs1.set i { entry with back := entry.back ++ [nb] },
                st.size + ((buf.length : Int) - (3 + 1))⟩)

/-- Embeds crossfs.c `cfg_rm`.  The subtracted size is
`strlen(nbuf) - CMD_RM_LEN - 1`. -/
def cfg_rm (st : CrossCfg) (buf : List Char) : Int × CrossCfg :=
  if buf.length > PIPE_BUF - 1 then (-ENAMETOOLONG, st)
  else
    match parse9 buf with
    | none => (-EINVAL, st)
    | some t =>
      if t.cmdTok ≠ cs "rm" ∨ t.cpathTok.head? ≠ some '/' ∨
          t.lpathTok.head? ≠ some '/' ∨ t.sp1 ≠ ' ' ∨ t.sp2 ≠ ' ' ∨
          t.sp3 ≠ ' ' ∨ t.newlineTok ≠ '\n' ∨ '/' ∈ t.stratumTok then
        (-EINVAL, st)
      else
        match idxOf? (fun c => c.cpath == t.cpathTok) st.cfgs with
        | none => (-EINVAL, st)
        | some i =>
          let entry := st.cfgs.getD i default
          match idxOf?
              (fun b => b.aliasName == t.stratumTok && b.lpath == t.lpathTok)
              entry.back with
          | none => (-EINVAL, st)
          | some j =>
            let back2 := removeSwap entry.back j
            let size2 := st.size - ((buf.length : Int) - (2 + 1))
            if back2.isEmpty then
              ((buf.length : Int), ⟨removeSwap st.cfgs i, size2⟩)
            else
              ((buf.length : Int),
                ⟨st.cfgs.set i { entry with back := back2 }, size2⟩)

/-- Embeds crossfs.c `m_write`'s command dispatch for the config file
(identity and path checks already passed: the write reaches the config
file as UID 0).  `clear`/`add`/`rm` are recognized by prefix memcmp;
`clear` resets everything including `cfg_stat.st_size`. -/
def cfg_write (st : CrossCfg) (buf : List Char) : Int × CrossCfg :=
  if (cs "clear").isPrefixOf buf then ((buf.length : Int), initCrossCfg)
  else if (cs "add").isPrefixOf buf then cfg_add st buf
  else if (cs "rm").isPrefixOf buf then cfg_rm st buf
  else (-EINVAL, st)

/-- One serialized config line, as built by crossfs.c `cfg_read`:
`<filter> <cpath> <stratum>:<lpath>\n`. -/
def cfgLine (f : Filter) (cp : List Char) (b : BackEntry) : List Char :=
  filterStr f ++ ' ' :: (cp ++ ' ' :: (b.aliasName ++ ':' :: (b.lpath ++ ['\n'])))

/-- The full serialization produced by crossfs.c `cfg_read` from offset 0
(one line per back entry, entries in array order). -/
def serializeCfg (st : CrossCfg) : List Char :=
  (st.cfgs.map (fun e => (e.back.map (cfgLine e.filter e.cpath)).flatten)).flatten

/-- crossfs.c `cfg_read` with offset and size: the serialization is built
in full, then `MIN(strlen(str + offset), size)` bytes from the offset are
returned.  For an empty config the read returns 0 bytes. -/
def cfg_read (st : CrossCfg) (size : Nat) (offset : Nat) : Int × List Char :=
  if st.cfgs.length = 0 then (0, [])
  else
    let str := serializeCfg st
    let out := (str.drop offset).take size
    ((out.length : Int), out)

/-! ## Parsing lemmas for canonical command lines -/

/-- Helper: takeWhile over an append whose left part satisfies the
predicate and whose right part starts with a failing character. -/
theorem takeWhile_append_of {p : Char → Bool} :
    ∀ {t rest : List Char}, (∀ c ∈ t, p c = true) →
      (∀ c, rest.head? = some c → p c = false) →
      (t ++ rest).takeWhile p = t := by
  intro t
  induction t with
  | nil =>
    intro rest _ hr
    cases rest with
    | nil => rfl
    | cons r rs =>
      rw [List.nil_append, List.takeWhile_cons, if_neg (by simp [hr r rfl])]
  | cons a t' ih =>
    intro rest ht hr
    rw [List.cons_append,
      List.takeWhile_cons_of_pos (ht a (List.mem_cons_self a t'))]
    rw [ih (fun c hc => ht c (List.mem_cons_of_mem a hc)) hr]

/-- Helper: sscanf %s on a nonempty whitespace-free token followed by a
whitespace-headed rest. -/
theorem readTok_append {t rest : List Char} (ht : t ≠ [])
    (hts : ∀ c ∈ t, isSp c = false)
    (hr : ∀ c, rest.head? = some c → isSp c = true) :
    readTok (t ++ rest) = some (t, rest) := by
  obtain ⟨a, t', rfl⟩ := List.exists_cons_of_ne_nil ht
  have h1 : ((a :: t') ++ rest).dropWhile isSp = (a :: t') ++ rest := by
    rw [List.cons_append]
    exact List.dropWhile_cons_of_neg
      (by simp [hts a (List.mem_cons_self a t')])
  have h2 : ((a :: t') ++ rest).takeWhile (fun c => !isSp c) = a :: t' := by
    apply takeWhile_append_of
    · intro c hc; simp [hts c hc]
    · intro c hc; simp [hr c hc]
  simp only [readTok, h1, h2]
  simp [List.drop_left]

/-- Helper: sscanf %[^:] on a nonempty colon-free token followed by a
colon. -/
theorem readNonColon_append {t rest : List Char} (ht : t ≠ [])
    (hts : ∀ c ∈ t, (c != ':') = true)
    (hr : ∀ c, rest.head? = some c → (c != ':') = false) :
    readNonColon (t ++ rest) = some (t, rest) := by
  have h2 : (t ++ rest).takeWhile (fun c => c != ':') = t :=
    takeWhile_append_of hts hr
  simp only [readNonColon, h2]
  simp [ht, List.drop_left]

/-- Helper: whitespace-headed rest starting with a space. -/
theorem head_isSp_of_sp {d : Char} {X : List Char} (hd : isSp d = true) :
    ∀ c, (d :: X).head? = some c → isSp c = true := by
  intro c hc
  cases hc
  exact hd

/-- Parsing a canonical `<cmd> <filter> <cpath> <stratum>:<lpath>\n` line
yields exactly its five tokens and separators. -/
theorem parse9_canonical {c0 ftok cp stok lp : List Char}
    (hc0 : c0 ≠ []) (hc0s : ∀ c ∈ c0, isSp c = false)
    (hf : ftok ≠ []) (hfs : ∀ c ∈ ftok, isSp c = false)
    (hcp : cp ≠ []) (hcps : ∀ c ∈ cp, isSp c = false)
    (hst : stok ≠ []) (hsts : ∀ c ∈ stok, (c != ':') = true)
    (hlp : lp ≠ []) (hlps : ∀ c ∈ lp, isSp c = false) :
    parse9 (c0 ++ ' ' :: (ftok ++ ' ' :: (cp ++ ' ' ::
        (stok ++ ':' :: (lp ++ ['\n']))))) =
      some (AddTokens.mk c0 ' ' ftok ' ' cp ' ' stok lp '\n') := by
  have e1 := @readTok_append c0 (' ' :: (ftok ++ ' ' :: (cp ++ ' ' ::
    (stok ++ ':' :: (lp ++ ['\n']))))) hc0 hc0s
    (head_isSp_of_sp (by decide))
  have e2 := @readTok_append ftok (' ' :: (cp ++ ' ' ::
    (stok ++ ':' :: (lp ++ ['\n'])))) hf hfs (head_isSp_of_sp (by decide))
  have e3 := @readTok_append cp (' ' :: (stok ++ ':' :: (lp ++ ['\n'])))
    hcp hcps (head_isSp_of_sp (by decide))
  have e4 := @readNonColon_append stok (':' :: (lp ++ ['\n'])) hst hsts
    (by intro c hc; cases hc; decide)
  have e5 := @readTok_append lp ['\n'] hlp hlps
    (head_isSp_of_sp (by decide))
  unfold parse9
  rw [e1]
  simp only [Option.some_bind, readCh]
  rw [e2]
  simp only [Option.some_bind, readCh]
  rw [e3]
  simp only [Option.some_bind, readCh]
  rw [e4]
  simp only [Option.some_bind, expectColon, if_pos]
  rw [e5]
  simp only [Option.some_bind, readCh, Option.map_some']

/-! ## Arithmetic of the serialization length -/

/-- Helper: what a successful linear index search guarantees. -/
theorem idxOf?_eq_some {p : α → Bool} (dflt : α) :
    ∀ {l : List α} {i : Nat}, idxOf? p l = some i →
      i < l.length ∧ p (l.getD i dflt) = true := by
  intro l
  induction l with
  | nil => intro i h; simp [idxOf?] at h
  | cons a t ih =>
    intro i h
    unfold idxOf? at h
    by_cases hp : p a
    · rw [if_pos hp] at h
      cases h
      exact ⟨by simp, by simpa using hp⟩
    · rw [if_neg hp] at h
      cases hidx : idxOf? p t with
      | none => rw [hidx] at h; simp at h
      | some j =>
        rw [hidx] at h
        simp only [Option.map_some', Option.some.injEq] at h
        obtain ⟨h1, h2⟩ := ih hidx
        subst h
        exact ⟨by simpa using h1, by simpa using h2⟩

/-- Helper: sum of mapped values across a set. -/
theorem sum_map_set (f : α → Nat) (dflt : α) :
    ∀ (l : List α) (i : Nat) (x : α), i < l.length →
      ((l.set i x).map f).sum + f (l.getD i dflt) = (l.map f).sum + f x := by
  intro l
  induction l with
  | nil => intro i x h; simp at h
  | cons a t ih =>
    intro i x h
    cases i with
    | zero =>
      simp [List.set]
      omega
    | succ n =>
      have hn : n < t.length := by simpa using h
      have := ih n x hn
      simp only [List.set, List.getD_cons_succ, List.map_cons, List.sum_cons]
      omega

/-- Helper: setting a slot to the last element keeps the last element. -/
theorem getLast?_set :
    ∀ (l : List α) (j : Nat) (x : α), j < l.length → l.getLast? = some x →
      (l.set j x).getLast? = some x := by
  intro l
  induction l with
  | nil => intro j x hj _; simp at hj
  | cons a t ih =>
    intro j x hj hl
    cases t with
    | nil =>
      cases j with
      | zero =>
        simp only [List.getLast?_singleton, Option.some.injEq] at hl
        subst hl
        simp [List.set]
      | succ n => simp at hj
    | cons b u =>
      cases j with
      | zero =>
        rw [List.getLast?_cons_cons] at hl
        simp only [List.set]
        rw [List.getLast?_cons_cons]
        exact hl
      | succ n =>
        have hj' : n < (b :: u).length := by simpa using hj
        have hl' : (b :: u).getLast? = some x := by
          rw [List.getLast?_cons_cons] at hl
          exact hl
        have hres := ih n x hj' hl'
        simp only [List.set]
        cases hM : (b :: u).set n x with
        | nil =>
          exfalso
          have := congrArg List.length hM
          simp at this
        | cons m0 M' =>
          rw [List.getLast?_cons_cons]
          rw [hM] at hres
          exact hres

/-- Helper: sum of mapped values across swap-removal of slot j. -/
theorem sum_map_removeSwap (f : α → Nat) (dflt : α) :
    ∀ (l : List α) (j : Nat), j < l.length →
      ((removeSwap l j).map f).sum + f (l.getD j dflt) = (l.map f).sum := by
  intro l j hj
  cases hlast : l.getLast? with
  | none =>
    exfalso
    rw [List.getLast?_eq_none_iff] at hlast
    subst hlast
    simp at hj
  | some x =>
    have hrs : removeSwap l j = (l.set j x).dropLast := by
      unfold removeSwap
      rw [hlast]
    rw [hrs]
    have hlastm : (l.set j x).getLast? = some x := getLast?_set l j x hj hlast
    have hsplit : (l.set j x).dropLast ++ [x] = l.set j x :=
      List.dropLast_append_getLast? x hlastm
    have hs := congrArg (fun l0 => ((l0.map f).sum)) hsplit
    simp only [List.map_append, List.sum_append, List.map_cons,
      List.sum_cons, List.map_nil, List.sum_nil] at hs
    have hset := sum_map_set f dflt l j x hj
    omega

/-- Byte length contributed by one cfg entry to the serialization. -/
def entryLen (e : CfgEntry) : Nat :=
  (e.back.map fun b => (cfgLine e.filter e.cpath b).length).sum

/-- The serialization's length is the sum of the entries' line lengths. -/
theorem serializeCfg_length (st : CrossCfg) :
    (serializeCfg st).length = (st.cfgs.map entryLen).sum := by
  unfold serializeCfg entryLen
  rw [List.length_flatten, List.map_map]
  congr 1
  apply List.map_congr_left
  intro e _
  simp [Function.comp, List.length_flatten, List.map_map]
  rfl

/-! ## C1: the size bookkeeping invariant -/

/-- Helper: getD at the length of the left part of an append. -/
theorem getD_append_length (l : List α) (x : α) (d : α) :
    (l ++ [x]).getD l.length d = x := by
  induction l with
  | nil => rfl
  | cons a t ih => simp only [List.cons_append, List.length_cons, List.getD_cons_succ]; exact ih

/-- Helper: filter strings are nonempty. -/
theorem filterStr_ne_nil (f : Filter) : filterStr f ≠ [] := by
  cases f <;> decide

/-- Helper: filter strings hold no whitespace. -/
theorem filterStr_noSp (f : Filter) : ∀ c ∈ filterStr f, isSp c = false := by
  cases f <;> decide

/-- Helper: filter strings hold no colon. -/
theorem filterStr_noColon (f : Filter) :
    ∀ c ∈ filterStr f, (c != ':') = true := by
  cases f <;> decide

/-- Helper: the linear filter scan maps each filter string to its
filter. -/
theorem lookupFilter_filterStr (f : Filter) :
    lookupFilter (filterStr f) = some f := by
  cases f <;> decide

/-- A whitespace-free nonempty token. -/
def CanonTok (t : List Char) : Prop := t ≠ [] ∧ ∀ c ∈ t, isSp c = false

/-- A canonical `add` command for the current state: exactly
`add <filter> <cpath> <stratum>:<lpath>\n` with single separators and, when
the cpath already has an entry, a filter token matching that entry's stored
filter. -/
def AddCanon (st : CrossCfg) (buf : List Char) : Prop :=
  ∃ f cp stok lp,
    buf = cs "add" ++ ' ' :: (filterStr f ++ ' ' :: (cp ++ ' ' ::
      (stok ++ ':' :: (lp ++ ['\n'])))) ∧
    CanonTok cp ∧ cp.head? = some '/' ∧
    stok ≠ [] ∧ (∀ c ∈ stok, (c != ':') = true) ∧ '/' ∉ stok ∧
    CanonTok lp ∧ lp.head? = some '/' ∧
    (∀ e ∈ st.cfgs, e.cpath = cp → e.filter = f)

/-- A canonical `rm` command for the current state: exactly
`rm <filter> <cpath> <stratum>:<lpath>\n` with single separators and a
filter token equal to the stored filter string of the cpath's entry. -/
def RmCanon (st : CrossCfg) (buf : List Char) : Prop :=
  ∃ ftok cp stok lp,
    buf = cs "rm" ++ ' ' :: (ftok ++ ' ' :: (cp ++ ' ' ::
      (stok ++ ':' :: (lp ++ ['\n'])))) ∧
    CanonTok ftok ∧ (∀ c ∈ ftok, (c != ':') = true) ∧
    CanonTok cp ∧ cp.head? = some '/' ∧
    stok ≠ [] ∧ (∀ c ∈ stok, (c != ':') = true) ∧ '/' ∉ stok ∧
    CanonTok lp ∧ lp.head? = some '/' ∧
    (∀ e ∈ st.cfgs, e.cpath = cp → filterStr e.filter = ftok)

/-- A command in normal form relative to the state it is applied to. -/
def NormalCmd (st : CrossCfg) (buf : List Char) : Prop :=
  (cs "clear").isPrefixOf buf = true ∨ AddCanon st buf ∨ RmCanon st buf

/-- The size invariant: `cfg_stat.st_size` equals the length of the
serialization `cfg_read` returns from offset 0. -/
def SizeInv (st : CrossCfg) : Prop :=
  st.size = ((serializeCfg st).length : Int)

/-- Preservation of the size invariant by a successful canonical add. -/
theorem cfg_add_preserves_inv (st : CrossCfg) (buf : List Char)
    (hInv : SizeInv st) (hcanon : AddCanon st buf)
    (hok : 0 ≤ (cfg_add st buf).1) :
    SizeInv (cfg_add st buf).2 := by
  obtain ⟨f, cp, stok, lp, hbuf, ⟨hcpne, hcpns⟩, hcph, hstne, hstnc, hstns,
    ⟨hlpne, hlpns⟩, hlph, hfmatch⟩ := hcanon
  subst hbuf
  by_cases hlen : (cs "add" ++ ' ' :: (filterStr f ++ ' ' :: (cp ++ ' ' ::
      (stok ++ ':' :: (lp ++ ['\n']))))).length > PIPE_BUF - 1
  · rw [cfg_add, if_pos hlen] at hok
    exact absurd hok (by norm_num [ENAMETOOLONG])
  · have hparse := @parse9_canonical (cs "add") (filterStr f) cp stok lp
      (by decide) (by decide)
      (filterStr_ne_nil f) (filterStr_noSp f) hcpne hcpns hstne hstnc
      hlpne hlpns
    have hsan : ¬(cs "add" ≠ cs "add" ∨ cp.head? ≠ some '/' ∨
        lp.head? ≠ some '/' ∨ ' ' ≠ ' ' ∨ ' ' ≠ ' ' ∨ ' ' ≠ ' ' ∨
        '\n' ≠ '\n' ∨ '/' ∈ stok) := by
      simp [hcph, hlph, hstns]
    rw [cfg_add, if_neg hlen, hparse] at hok ⊢
    simp only [hsan, if_neg, if_false, lookupFilter_filterStr] at hok ⊢
    clear hok
    have hL : (cs "add" ++ ' ' :: (filterStr f ++ ' ' :: (cp ++ ' ' ::
        (stok ++ ':' :: (lp ++ ['\n']))))).length =
        (cfgLine f cp ⟨lp, stok, stok == cs "local"⟩).length + 4 := by
      have h3 : (cs "add").length = 3 := rfl
      simp [cfgLine, List.length_append, h3]
      omega
    cases hfound : idxOf? (fun c => c.cpath == cp) st.cfgs with
    | none =>
      simp only [getD_append_length, List.any_nil, Bool.false_eq_true,
        if_false, SizeInv]
      rw [serializeCfg_length]
      have hset := sum_map_set entryLen default (st.cfgs ++
        [CfgEntry.mk f cp []]) st.cfgs.length
        (CfgEntry.mk f cp ([] ++ [BackEntry.mk lp stok (stok == cs "local")]))
        (by simp)
      rw [getD_append_length] at hset
      have hA : ((st.cfgs ++ [CfgEntry.mk f cp []]).map entryLen).sum =
          (st.cfgs.map entryLen).sum := by
        simp [entryLen]
      have hU : entryLen (CfgEntry.mk f cp
          ([] ++ [BackEntry.mk lp stok (stok == cs "local")])) =
          (cfgLine f cp (BackEntry.mk lp stok (stok == cs "local"))).length := by
        simp [entryLen]
      have hE : entryLen (CfgEntry.mk f cp []) = 0 := by simp [entryLen]
      simp only [SizeInv] at hInv
      rw [serializeCfg_length] at hInv
      rw [hA, hU, hE] at hset
      dsimp only
      omega
    | some i =>
      obtain ⟨hi, hpi⟩ := idxOf?_eq_some default hfound
      have hcpeq : (st.cfgs.getD i default).cpath = cp := by simpa using hpi
      have hmem : st.cfgs.getD i default ∈ st.cfgs := by
        rw [List.getD_eq_getElem st.cfgs default hi]
        exact List.getElem_mem hi
      have hfil : (st.cfgs.getD i default).filter = f :=
        hfmatch _ hmem hcpeq
      by_cases hdup : ((st.cfgs.getD i default).back.any
          fun b => b.aliasName == stok && b.lpath == lp) = true
      · simp only [hdup, if_true, if_pos]
        exact hInv
      · simp only [hdup, Bool.false_eq_true, if_false, SizeInv]
        rw [serializeCfg_length]
        have hset := sum_map_set entryLen default st.cfgs i
          (CfgEntry.mk (st.cfgs.getD i default).filter
            (st.cfgs.getD i default).cpath
            ((st.cfgs.getD i default).back ++
              [BackEntry.mk lp stok (stok == cs "local")])) hi
        have hU : entryLen (CfgEntry.mk (st.cfgs.getD i default).filter
            (st.cfgs.getD i default).cpath
            ((st.cfgs.getD i default).back ++
              [BackEntry.mk lp stok (stok == cs "local")])) =
            entryLen (st.cfgs.getD i default) +
              (cfgLine f cp (BackEntry.mk lp stok (stok == cs "local"))).length
            := by
          simp only [entryLen, List.map_append, List.sum_append,
            List.map_cons, List.map_nil, List.sum_nil, List.sum_cons]
          rw [hfil, hcpeq]
          omega
        simp only [SizeInv] at hInv
        rw [serializeCfg_length] at hInv
        rw [hU] at hset
        dsimp only
        omega

/-- Preservation of the size invariant by a successful canonical rm. -/
theorem cfg_rm_preserves_inv (st : CrossCfg) (buf : List Char)
    (hInv : SizeInv st) (hcanon : RmCanon st buf)
    (hok : 0 ≤ (cfg_rm st buf).1) :
    SizeInv (cfg_rm st buf).2 := by
  obtain ⟨ftok, cp, stok, lp, hbuf, ⟨hfne, hfns⟩, hfnc, ⟨hcpne, hcpns⟩, hcph,
    hstne, hstnc, hstns, ⟨hlpne, hlpns⟩, hlph, hfmatch⟩ := hcanon
  subst hbuf
  by_cases hlen : (cs "rm" ++ ' ' :: (ftok ++ ' ' :: (cp ++ ' ' ::
      (stok ++ ':' :: (lp ++ ['\n']))))).length > PIPE_BUF - 1
  · rw [cfg_rm, if_pos hlen] at hok
    exact absurd hok (by norm_num [ENAMETOOLONG])
  · have hparse := @parse9_canonical (cs "rm") ftok cp stok lp
      (by decide) (by decide)
      hfne hfns hcpne hcpns hstne hstnc hlpne hlpns
    have hsan : ¬(cs "rm" ≠ cs "rm" ∨ cp.head? ≠ some '/' ∨
        lp.head? ≠ some '/' ∨ ' ' ≠ ' ' ∨ ' ' ≠ ' ' ∨ ' ' ≠ ' ' ∨
        '\n' ≠ '\n' ∨ '/' ∈ stok) := by
      simp [hcph, hlph, hstns]
    rw [cfg_rm, if_neg hlen, hparse] at hok ⊢
    simp only [hsan, if_neg, if_false] at hok ⊢
    clear hok
    cases hfound : idxOf? (fun c => c.cpath == cp) st.cfgs with
    | none =>
      exact hInv
    | some i =>
      obtain ⟨hi, hpi⟩ := idxOf?_eq_some default hfound
      have hcpeq : (st.cfgs.getD i default).cpath = cp := by simpa using hpi
      have hmem : st.cfgs.getD i default ∈ st.cfgs := by
        rw [List.getD_eq_getElem st.cfgs default hi]
        exact List.getElem_mem hi
      have hfe : filterStr (st.cfgs.getD i default).filter = ftok :=
        hfmatch _ hmem hcpeq
      dsimp only
      cases hfb : idxOf?
          (fun b => b.aliasName == stok && b.lpath == lp)
          (st.cfgs.getD i default).back with
      | none =>
        exact hInv
      | some j =>
        obtain ⟨hj, hpj⟩ := idxOf?_eq_some default hfb
        obtain ⟨hbal, hblp⟩ :
            ((st.cfgs.getD i default).back.getD j default).aliasName = stok ∧
            ((st.cfgs.getD i default).back.getD j default).lpath = lp := by
          simpa using hpj
        have hlinee : cfgLine (st.cfgs.getD i default).filter
            (st.cfgs.getD i default).cpath
            ((st.cfgs.getD i default).back.getD j default) =
            ftok ++ ' ' :: (cp ++ ' ' :: (stok ++ ':' :: (lp ++ ['\n']))) := by
          unfold cfgLine
          rw [hfe, hcpeq, hbal, hblp]
        have hL : (cs "rm" ++ ' ' :: (ftok ++ ' ' :: (cp ++ ' ' ::
            (stok ++ ':' :: (lp ++ ['\n']))))).length =
            (cfgLine (st.cfgs.getD i default).filter
              (st.cfgs.getD i default).cpath
              ((st.cfgs.getD i default).back.getD j default)).length + 3 := by
          rw [hlinee]
          have h2 : (cs "rm").length = 2 := rfl
          simp [List.length_append, h2]
          omega
        have hsetB := sum_map_removeSwap
          (fun b => (cfgLine (st.cfgs.getD i default).filter
            (st.cfgs.getD i default).cpath b).length) default
          (st.cfgs.getD i default).back j hj
        have hEL : entryLen (st.cfgs.getD i default) =
            ((st.cfgs.getD i default).back.map
              (fun b => (cfgLine (st.cfgs.getD i default).filter
                (st.cfgs.getD i default).cpath b).length)).sum := rfl
        simp only [SizeInv] at hInv ⊢
        rw [serializeCfg_length] at hInv
        by_cases hemp :
            (removeSwap (st.cfgs.getD i default).back j).isEmpty = true
        · have hb2 : removeSwap (st.cfgs.getD i default).back j = [] := by
            simpa using hemp
          have hE2 : (cfgLine (st.cfgs.getD i default).filter
              (st.cfgs.getD i default).cpath
              ((st.cfgs.getD i default).back.getD j default)).length =
              entryLen (st.cfgs.getD i default) := by
            rw [hEL]
            rw [hb2] at hsetB
            simpa using hsetB
          have hsetC := sum_map_removeSwap entryLen default st.cfgs i hi
          simp only [hemp, if_true, if_pos]
          rw [serializeCfg_length]
          dsimp only
          omega
        · have hU : entryLen (CfgEntry.mk (st.cfgs.getD i default).filter
              (st.cfgs.getD i default).cpath
              (removeSwap (st.cfgs.getD i default).back j)) +
              (cfgLine (st.cfgs.getD i default).filter
                (st.cfgs.getD i default).cpath
                ((st.cfgs.getD i default).back.getD j default)).length =
              entryLen (st.cfgs.getD i default) := by
            have h1 : entryLen (CfgEntry.mk (st.cfgs.getD i default).filter
                (st.cfgs.getD i default).cpath
                (removeSwap (st.cfgs.getD i default).back j)) =
                ((removeSwap (st.cfgs.getD i default).back j).map
                  (fun b => (cfgLine (st.cfgs.getD i default).filter
                    (st.cfgs.getD i default).cpath b).length)).sum := rfl
            rw [h1, hEL]
            exact hsetB
          have hsetC := sum_map_set entryLen default st.cfgs i
            (CfgEntry.mk (st.cfgs.getD i default).filter
              (st.cfgs.getD i default).cpath
              (removeSwap (st.cfgs.getD i default).back j)) hi
          simp only [hemp, Bool.false_eq_true, if_false]
          rw [serializeCfg_length]
          dsimp only
          omega

/-- Preservation of the size invariant by any successful normal-form
command through the m_write dispatch. -/
theorem cfg_write_preserves_inv (st : CrossCfg) (buf : List Char)
    (hInv : SizeInv st) (hnorm : NormalCmd st buf)
    (hok : 0 ≤ (cfg_write st buf).1) :
    SizeInv (cfg_write st buf).2 := by
  rcases hnorm with hclear | hadd | hrm
  · rw [cfg_write, if_pos hclear]
    simp [SizeInv, initCrossCfg, serializeCfg]
  · obtain ⟨f, cp, stok, lp, hbuf, h2, h3, h4, h5, h6, h7, h8, h9⟩ := hadd
    subst hbuf
    have hpre1 : (cs "clear").isPrefixOf (cs "add" ++ ' ' ::
        (filterStr f ++ ' ' :: (cp ++ ' ' ::
          (stok ++ ':' :: (lp ++ ['\n']))))) = false := by
      cases f <;> rfl
    have hpre2 : (cs "add").isPrefixOf (cs "add" ++ ' ' ::
        (filterStr f ++ ' ' :: (cp ++ ' ' ::
          (stok ++ ':' :: (lp ++ ['\n']))))) = true := by
      cases f <;> rfl
    rw [cfg_write, if_neg (by rw [hpre1]; exact Bool.false_ne_true),
      if_pos hpre2] at hok ⊢
    exact cfg_add_preserves_inv st _ hInv
      ⟨f, cp, stok, lp, rfl, h2, h3, h4, h5, h6, h7, h8, h9⟩ hok
  · obtain ⟨ftok, cp, stok, lp, hbuf, h2, h3, h4, h5, h6, h7, h8, h9, h10,
      h11⟩ := hrm
    subst hbuf
    obtain ⟨hfne, hfns⟩ := h2
    obtain ⟨c0, ftok', rfl⟩ := List.exists_cons_of_ne_nil hfne
    have hpre1 : (cs "clear").isPrefixOf (cs "rm" ++ ' ' ::
        ((c0 :: ftok') ++ ' ' :: (cp ++ ' ' ::
          (stok ++ ':' :: (lp ++ ['\n']))))) = false := rfl
    have hpre2 : (cs "add").isPrefixOf (cs "rm" ++ ' ' ::
        ((c0 :: ftok') ++ ' ' :: (cp ++ ' ' ::
          (stok ++ ':' :: (lp ++ ['\n']))))) = false := rfl
    have hpre3 : (cs "rm").isPrefixOf (cs "rm" ++ ' ' ::
        ((c0 :: ftok') ++ ' ' :: (cp ++ ' ' ::
          (stok ++ ':' :: (lp ++ ['\n']))))) = true := rfl
    rw [cfg_write, if_neg (by rw [hpre1]; exact Bool.false_ne_true),
      if_neg (by rw [hpre2]; exact Bool.false_ne_true),
      if_pos hpre3] at hok ⊢
    exact cfg_rm_preserves_inv st _ hInv
      ⟨c0 :: ftok', cp, stok, lp, rfl, ⟨hfne, hfns⟩, h3, h4, h5, h6, h7, h8,
        h9, h10, h11⟩ hok

/-- A trace of commands, each in normal form for the state it reaches and
each successful (the write returns its size, not a negative errno). -/
def NormalTrace : CrossCfg → List (List Char) → Prop
  | _, [] => True
  | st, c :: rest =>
    NormalCmd st c ∧ 0 ≤ (cfg_write st c).1 ∧
      NormalTrace (cfg_write st c).2 rest

/-- Replay a sequence of config-file writes. -/
def runCmds : CrossCfg → List (List Char) → CrossCfg
  | st, [] => st
  | st, c :: rest => runCmds (cfg_write st c).2 rest

/-- Helper: the invariant survives a whole normal trace. -/
theorem runCmds_inv : ∀ (cmds : List (List Char)) (st : CrossCfg),
    SizeInv st → NormalTrace st cmds → SizeInv (runCmds st cmds) := by
  intro cmds
  induction cmds with
  | nil => intro st h _; exact h
  | cons c rest ih =>
    intro st h htr
    obtain ⟨h1, h2, h3⟩ := htr
    exact ih _ (cfg_write_preserves_inv st c h h1 h2) h3

/-- C1 counterexample: the claim fails as stated.  A successful `add`
command with a doubled separator space is accepted by the sscanf-based
parser, but `cfg_add` credits `cfg_stat.st_size` with
`strlen(nbuf) - CMD_ADD_LEN - 1` computed from the raw command text
(13 bytes here), while the serialization `cfg_read` produces is the
normal-form line `bin /x a:/y\n` (12 bytes). -/
theorem cfg_size_counterexample :
    0 ≤ (cfg_write initCrossCfg (cs "add  bin /x a:/y\n")).1 ∧
    (cfg_write initCrossCfg (cs "add  bin /x a:/y\n")).2.size ≠
      ((serializeCfg
        ((cfg_write initCrossCfg (cs "add  bin /x a:/y\n")).2)).length :
          Int) := by
  decide

/-- C1 amended: starting from the mount-time state, after every sequence
of successful configuration commands in which each add and rm is in normal
form — exactly `add|rm <filter> <cpath> <stratum>:<lpath>\n` with single
separators and a filter token equal to the entry's stored filter — the
config file size `cfg_stat.st_size` equals the byte length of the
serialization produced by reading the config pseudo-file from offset 0
(one line `<filter> <cpath> <stratum>:<lpath>` plus newline per back
entry, with the filter being the cfg_entry's stored filter).  Instantiated
at every prefix of a trace, this gives the invariant after each command. -/
theorem cfg_size_tracks_serialization (cmds : List (List Char))
    (htr : NormalTrace initCrossCfg cmds) :
    (runCmds initCrossCfg cmds).size =
      ((serializeCfg (runCmds initCrossCfg cmds)).length : Int) :=
  runCmds_inv cmds initCrossCfg (by simp [SizeInv, initCrossCfg, serializeCfg])
    htr

/-- Witness for C1 amended: the single normal-form command
`add bin /x a:/y` leaves size 12 equal to the serialization length 12. -/
theorem cfg_size_tracks_serialization_witness :
    NormalTrace initCrossCfg [cs "add bin /x a:/y\n"] ∧
    (runCmds initCrossCfg [cs "add bin /x a:/y\n"]).size =
      ((serializeCfg (runCmds initCrossCfg [cs "add bin /x a:/y\n"])).length :
        Int) := by
  have htr : NormalTrace initCrossCfg [cs "add bin /x a:/y\n"] := by
    refine ⟨Or.inr (Or.inl ⟨Filter.bin, cs "/x", cs "a", cs "/y",
      by decide, ⟨by decide, by decide⟩, by decide, by decide, by decide,
      by decide, ⟨by decide, by decide⟩, by decide, ?_⟩), by decide, trivial⟩
    intro e he
    simp [initCrossCfg] at he
  exact ⟨htr, cfg_size_tracks_serialization _ htr⟩

/-! ## strat.c check_config_secure -/

/-- Result of one lstat, as far as the secure check inspects it. -/
structure FileMeta where
  isLink : Bool
  uid : Nat
  mode : Nat
deriving DecidableEq, Repr, Inhabited

def S_IWGRP : Nat := 0o20
def S_IWOTH : Nat := 0o2

/-- The checks the loop body of strat.c `check_config_secure` performs on
one path: lstat must succeed (else ENOENT), the entry must not be a
symlink (else EMLINK), its owner must be root and it must not be
group- or other-writable (else EACCES). -/
def check_one (env : List Char → Option FileMeta) (p : List Char) :
    Option Int :=
  match env p with
  | none => some ENOENT
  | some m =>
    if m.isLink then some EMLINK
    else if m.uid ≠ 0 then some EACCES
    else if m.mode &&& (S_IWGRP ||| S_IWOTH) ≠ 0 then some EACCES
    else none

/-- Index of the last '/' (C strrchr). -/
def lastSlashIdx? : List Char → Option Nat
  | [] => none
  | c :: r =>
    match lastSlashIdx? r with
    | some i => some (i + 1)
    | none => if c = '/' then some 0 else none

/-- Helper: a last-slash index is in bounds. -/
theorem lastSlashIdx?_lt :
    ∀ {p : List Char} {i : Nat}, lastSlashIdx? p = some i → i < p.length := by
  intro p
  induction p with
  | nil => intro i h; simp [lastSlashIdx?] at h
  | cons c r ih =>
    intro i h
    unfold lastSlashIdx? at h
    cases hr : lastSlashIdx? r with
    | some j =>
      rw [hr] at h
      cases h
      have := ih hr
      simp
      omega
    | none =>
      rw [hr] at h
      by_cases hc : c = '/'
      · rw [if_pos hc] at h
        cases h
        simp
      · rw [if_neg hc] at h
        cases h

/-- The loop body of strat.c `check_config_secure`, with explicit fuel
(each iteration strictly shortens the path, so `length + 1` fuel always
suffices): while the path still contains a '/', check it, then truncate it
at its last '/'. -/
def checkSecureLoop (env : List Char → Option FileMeta) :
    Nat → List Char → Option Int
  | 0, _ => none
  | fuel + 1, p =>
    match lastSlashIdx? p with
    | none => none
    | some i =>
      match check_one env p with
      | some e => some e
      | none => checkSecureLoop env fuel (p.take i)

/-- Embeds strat.c `check_config_secure`: `for (p = NULL;
(p = strrchr(path, '/')) != NULL; *p = '\0')` with the checks in the
body.  Returns `none` for success (0) and `some errno` for the -1/errno
failure. -/
def check_config_secure (env : List Char → Option FileMeta)
    (p : List Char) : Option Int :=
  checkSecureLoop env (p.length + 1) p

/-- The prefixes the loop visits, fueled like the loop itself. -/
def checkedPrefixesLoop : Nat → List Char → List (List Char)
  | 0, _ => []
  | fuel + 1, p =>
    match lastSlashIdx? p with
    | none => []
    | some i => p :: checkedPrefixesLoop fuel (p.take i)

/-- The prefixes the check actually visits, from the whole path down to,
but not including, the slash-free remainder: the path itself and each
ancestor directory except the filesystem root. -/
def checkedPrefixes (p : List Char) : List (List Char) :=
  checkedPrefixesLoop (p.length + 1) p

/-- The first violated check across an ordered list of paths. -/
def firstViolation (env : List Char → Option FileMeta) :
    List (List Char) → Option Int
  | [] => none
  | q :: qs =>
    match check_one env q with
    | some e => some e
    | none => firstViolation env qs

/-- A concrete environment for the C7 counterexample: "/a" is a secure
root-owned file but the root directory "/" is owned by uid 1000 and
world-writable. -/
def c7Env : List Char → Option FileMeta := fun q =>
  if q = cs "/a" then some ⟨false, 0, 0o755⟩
  else if q = cs "/" then some ⟨false, 1000, 0o777⟩
  else none

/-- C7 counterexample: the claim's "for every prefix ... (the path itself
and each ancestor directory)" fails as an iff.  For the path "/a" the root
directory "/" is an ancestor-directory prefix and is insecure (uid 1000,
world-writable), yet the check succeeds: the loop truncates "/a" to ""
after checking it and exits without ever checking "/". -/
theorem check_config_secure_counterexample :
    check_config_secure c7Env (cs "/a") = none ∧
    check_one c7Env (cs "/") = some EACCES := by
  decide

/-- Helper: fuel-indexed equivalence of the secure-check loop with the
first violation over the visited prefixes. -/
theorem check_eq_firstViolation_aux (env : List Char → Option FileMeta) :
    ∀ (fuel : Nat) (p : List Char), p.length < fuel →
      checkSecureLoop env fuel p =
        firstViolation env (checkedPrefixesLoop fuel p) := by
  intro fuel
  induction fuel with
  | zero => intro p hp; simp at hp
  | succ n ih =>
    intro p hp
    unfold checkSecureLoop checkedPrefixesLoop
    cases h : lastSlashIdx? p with
    | none => rfl
    | some i =>
      cases hc : check_one env p with
      | some e => simp [firstViolation, hc]
      | none =>
        simp only [firstViolation, hc]
        exact ih (p.take i) (by
          have := lastSlashIdx?_lt h
          simp only [List.length_take]
          omega)

/-- Helper: the fuel only needs to dominate the path length. -/
theorem checkSecureLoop_fuel (env : List Char → Option FileMeta) :
    ∀ (f1 f2 : Nat) (p : List Char), p.length < f1 → p.length < f2 →
      checkSecureLoop env f1 p = checkSecureLoop env f2 p := by
  intro f1
  induction f1 with
  | zero => intro f2 p h1 _; simp at h1
  | succ n ih =>
    intro f2 p h1 h2
    cases f2 with
    | zero => simp at h2
    | succ m =>
      unfold checkSecureLoop
      cases h : lastSlashIdx? p with
      | none => rfl
      | some i =>
        cases hc : check_one env p with
        | some e => rfl
        | none =>
          have hlt := lastSlashIdx?_lt h
          exact ih m (p.take i)
            (by simp only [List.length_take]; omega)
            (by simp only [List.length_take]; omega)

/-- Helper: prefix enumeration also only needs dominating fuel. -/
theorem checkedPrefixesLoop_fuel :
    ∀ (f1 f2 : Nat) (p : List Char), p.length < f1 → p.length < f2 →
      checkedPrefixesLoop f1 p = checkedPrefixesLoop f2 p := by
  intro f1
  induction f1 with
  | zero => intro f2 p h1 _; simp at h1
  | succ n ih =>
    intro f2 p h1 h2
    cases f2 with
    | zero => simp at h2
    | succ m =>
      unfold checkedPrefixesLoop
      cases h : lastSlashIdx? p with
      | none => rfl
      | some i =>
        have hlt := lastSlashIdx?_lt h
        exact congrArg (fun l => p :: l) (ih m (p.take i)
          (by simp only [List.length_take]; omega)
          (by simp only [List.length_take]; omega))

/-- C7 amended: strat's secure-file check equals the first violated check
(with its errno ENOENT, EMLINK or EACCES, in deepest-first order) over the
prefixes the loop visits: the path itself and each ancestor directory
obtained by truncating at the last '/', stopping before the slash-free
remainder — so the filesystem root itself is never checked.  In
particular the check succeeds iff every visited prefix passes lstat, is
not a symlink, is owned by uid 0, and has neither S_IWGRP nor S_IWOTH
set. -/
theorem check_config_secure_spec (env : List Char → Option FileMeta)
    (p : List Char) :
    check_config_secure env p = firstViolation env (checkedPrefixes p) :=
  check_eq_firstViolation_aux env (p.length + 1) p (Nat.lt_succ_self _)

/-! ## bouncer.c argv construction -/

/-- Embeds the argv layout code of bouncer.c main (lines 86-102): the
index arithmetic writing into `new_argv`, with `restrict_flag` 0 or 1.
Cell `i + 4 + restrict_flag` holds original argv[i] for i in 1..argc-1 and
cell `argc + 4 + restrict_flag` holds the terminating NULL (`none`).
`args` is the original argv[1..]; the exec sees cells 0 through the
NULL. -/
def bouncer_new_argv (argv0 : List Char) (args : List (List Char))
    (stratum lpath : List Char) (restrictPresent : Bool) :
    List (Option (List Char)) :=
  let r : Nat := if restrictPresent then 1 else 0
  (List.range (args.length + 6 + r)).map (fun idx =>
    if idx = 0 then some (cs "/bedrock/bin/strat")
    else if idx = 1 then some (cs "--arg0")
    else if idx = 2 then some argv0
    else if restrictPresent ∧ idx = 3 then some (cs "--restrict")
    else if idx = 3 + r then some stratum
    else if idx = 4 + r then some lpath
    else if idx < args.length + 5 + r then args[idx - 5 - r]?
    else none)

/-- The argv layout the spec describes: strat path, --arg0, original
argv[0], optionally --restrict, stratum, localpath, original argv[1..],
terminating NULL. -/
def bouncer_spec_argv (argv0 : List Char) (args : List (List Char))
    (stratum lpath : List Char) (restrictPresent : Bool) :
    List (Option (List Char)) :=
  [some (cs "/bedrock/bin/strat"), some (cs "--arg0"), some argv0] ++
  (if restrictPresent then [some (cs "--restrict")] else []) ++
  [some stratum, some lpath] ++ args.map some ++ [none]

/-- Helper: the tail of the argv table is the argument list followed by
the NULL terminator. -/
theorem map_range_args (args : List (List Char)) :
    (List.range (args.length + 1)).map
      (fun j => if j < args.length then args[j]? else none) =
      args.map some ++ [none] := by
  induction args with
  | nil => rfl
  | cons a t ih =>
    rw [List.length_cons, List.range_succ_eq_map]
    rw [List.map_cons, List.map_map]
    simp only [Nat.zero_lt_succ, if_true, List.getElem?_cons_zero]
    congr 1
    have : ((fun j => if j < t.length + 1 then (a :: t)[j]? else none) ∘
        Nat.succ) = fun j => if j < t.length then t[j]? else none := by
      funext j
      simp only [Function.comp]
      by_cases hj : j < t.length
      · rw [if_pos (by omega), if_pos hj]
        simp
      · rw [if_neg (by omega), if_neg hj]
    rw [this, ih]
    rfl

/-- C8: for every incoming argv and xattr combination, bouncer execs
/bedrock/bin/strat with argv exactly strat-path, `--arg0`, original
argv[0], then `--restrict` exactly when the restrict xattr is present,
then the stratum, the localpath, the original argv[1..] and a terminating
NULL; without the restrict xattr the token is omitted and all later
positions shift down by one. -/
theorem bouncer_argv_layout (argv0 : List Char) (args : List (List Char))
    (stratum lpath : List Char) (restrictPresent : Bool) :
    bouncer_new_argv argv0 args stratum lpath restrictPresent =
      bouncer_spec_argv argv0 args stratum lpath restrictPresent := by
  cases restrictPresent with
  | false =>
    unfold bouncer_new_argv bouncer_spec_argv
    simp only [Bool.false_eq_true, if_false, false_and, Nat.add_zero]
    rw [show args.length + 6 = 5 + (args.length + 1) from by omega,
      List.range_add, List.map_append, List.map_map,
      show List.range 5 = [0, 1, 2, 3, 4] from rfl]
    rw [show ([some (cs "/bedrock/bin/strat"), some (cs "--arg0"),
        some argv0] ++ [] ++ [some stratum, some lpath] ++
        args.map some ++ [none] : List (Option (List Char))) =
      [some (cs "/bedrock/bin/strat"), some (cs "--arg0"), some argv0,
        some stratum, some lpath] ++ (args.map some ++ [none]) from by
      simp]
    congr 1
    rw [← map_range_args args]
    apply List.map_congr_left
    intro j hj
    have hj' : j < args.length + 1 := List.mem_range.mp hj
    simp only [Function.comp]
    by_cases h : j < args.length
    · rw [if_neg (by omega), if_neg (by omega), if_neg (by omega),
        if_neg (by omega), if_neg (by omega), if_pos (by omega),
        if_pos h]
      congr 1
      omega
    · rw [if_neg (by omega), if_neg (by omega), if_neg (by omega),
        if_neg (by omega), if_neg (by omega), if_neg (by omega),
        if_neg h]
  | true =>
    unfold bouncer_new_argv bouncer_spec_argv
    simp only [if_true, true_and]
    rw [show args.length + 6 + 1 = 6 + (args.length + 1) from by omega,
      List.range_add, List.map_append, List.map_map,
      show List.range 6 = [0, 1, 2, 3, 4, 5] from rfl]
    rw [show ([some (cs "/bedrock/bin/strat"), some (cs "--arg0"),
        some argv0] ++ [some (cs "--restrict")] ++
        [some stratum, some lpath] ++ args.map some ++ [none] :
          List (Option (List Char))) =
      [some (cs "/bedrock/bin/strat"), some (cs "--arg0"), some argv0,
        some (cs "--restrict"), some stratum, some lpath] ++
        (args.map some ++ [none]) from by simp]
    congr 1
    rw [← map_range_args args]
    apply List.map_congr_left
    intro j hj
    have hj' : j < args.length + 1 := List.mem_range.mp hj
    simp only [Function.comp]
    by_cases h : j < args.length
    · rw [if_neg (by omega), if_neg (by omega), if_neg (by omega),
        if_neg (by omega), if_neg (by omega), if_neg (by omega),
        if_pos (by omega), if_pos h]
      congr 1
      omega
    · rw [if_neg (by omega), if_neg (by omega), if_neg (by omega),
        if_neg (by omega), if_neg (by omega), if_neg (by omega),
        if_neg (by omega), if_neg h]

/-! ## crossfs backing-filesystem model (stat_first_bpath, loc_first_bpath,
open_first_bpath, font_merge_kv, getattr_ini, getattr_back, read_back's
FONT arm, m_open's BACK arm)

Access to the backing strata is abstracted by oracles: `statB`/`openB`
return success or an errno (the C calls return -1 with errno set),
`existsB` is `fchroot_file_exists` (true also for non-ENOENT errors), and
`fopenB` is `fchroot_fopen_rdonly` returning the whole file contents (the
subsequent fgets loops read the stream to EOF).  `serviceTextLen` stands
for `generate_service_for`'s generated text length and `readPass` for
`read_pass` (a plain pass-through pread of the first backing file), both
outside the claims below. -/

def S_IFMT : Nat := 0o170000
def S_IFDIR : Nat := 0o40000
def S_IFREG : Nat := 0o100000
def S_ISUID : Nat := 0o4000
def S_ISGID : Nat := 0o2000
def S_ISVTX : Nat := 0o1000
def S_IRUSR : Nat := 0o400
def S_IWUSR : Nat := 0o200
def S_IRGRP : Nat := 0o40
def S_IROTH : Nat := 0o4

def S_ISDIR (m : Nat) : Bool := m &&& S_IFMT == S_IFDIR

def S_ISREG (m : Nat) : Bool := m &&& S_IFMT == S_IFREG

/-- The stat fields crossfs reads and writes. -/
structure FStat where
  mode : Nat
  size : Int
  nlink : Nat
deriving DecidableEq, Repr, Inhabited

/-- Decidable equality of `Except` results (not derived in core). -/
instance instDecidableEqExcept {ε α : Type} [DecidableEq ε]
    [DecidableEq α] : DecidableEq (Except ε α) := fun a b =>
  match a, b with
  | .error e, .error f => decidable_of_iff (e = f) (by simp)
  | .error _, .ok _ => isFalse (fun h => Except.noConfusion h)
  | .ok _, .error _ => isFalse (fun h => Except.noConfusion h)
  | .ok x, .ok y => decidable_of_iff (x = y) (by simp)

/-- Oracles for the backing strata (keyed on the back entry). -/
structure FsEnv where
  statB : BackEntry → List Char → Except Int FStat
  existsB : BackEntry → List Char → Bool
  fopenB : BackEntry → List Char → Except Int (List Char)
  openB : BackEntry → List Char → Nat → Except Int Nat
  bouncerSize : Int
  serviceTextLen : BackEntry → List Char → Int
  readPass : List Char → Nat → Nat → Int × List Char

/-- Loop of crossfs.c `stat_first_bpath`: stat every bpath, return after
the first non-ENOENT hit; `rv` stays -ENOENT when every iteration is
skipped or ENOENT (the stale-errno read in that case is modelled as
ENOENT). -/
def statFirstLoop (env : FsEnv) (cpath ipath : List Char) :
    List BackEntry → Except Int FStat
  | [] => .error ENOENT
  | b :: rest =>
    match calc_bpath cpath b.lpath ipath with
    | none => statFirstLoop env cpath ipath rest
    | some bpath =>
      match env.statB b bpath with
      | .ok stv => .ok stv
      | .error e =>
        if e = ENOENT then statFirstLoop env cpath ipath rest else .error e

/-- crossfs.c `stat_first_bpath`. -/
def stat_first_bpath (env : FsEnv) (cfg : CfgEntry) (ipath : List Char) :
    Except Int FStat :=
  statFirstLoop env cfg.cpath ipath cfg.back

/-- Loop of crossfs.c `loc_first_bpath`: the first back entry (with its
bpath) whose file exists.  The E2BIG re-truncation check cannot fire
because `calc_bpath` already bounds its output by PATH_MAX. -/
def locFirstLoop (env : FsEnv) (cpath ipath : List Char) :
    List BackEntry → Option (BackEntry × List Char)
  | [] => none
  | b :: rest =>
    match calc_bpath cpath b.lpath ipath with
    | none => locFirstLoop env cpath ipath rest
    | some bpath =>
      if env.existsB b bpath then some (b, bpath)
      else locFirstLoop env cpath ipath rest

/-- crossfs.c `loc_first_bpath`. -/
def loc_first_bpath (env : FsEnv) (cfg : CfgEntry) (ipath : List Char) :
    Option (BackEntry × List Char) :=
  locFirstLoop env cfg.cpath ipath cfg.back

/-- Loop of crossfs.c `open_first_bpath`: open every bpath with the given
flags, return after the first non-ENOENT hit. -/
def openFirstLoop (env : FsEnv) (cpath ipath : List Char) (flags : Nat) :
    List BackEntry → Except Int Nat
  | [] => .error ENOENT
  | b :: rest =>
    match calc_bpath cpath b.lpath ipath with
    | none => openFirstLoop env cpath ipath flags rest
    | some bpath =>
      match env.openB b bpath flags with
      | .ok fd => .ok fd
      | .error e =>
        if e = ENOENT then openFirstLoop env cpath ipath flags rest
        else .error e

/-- crossfs.c `open_first_bpath`. -/
def open_first_bpath (env : FsEnv) (cfg : CfgEntry) (ipath : List Char)
    (flags : Nat) : Except Int Nat :=
  openFirstLoop env cfg.cpath ipath flags cfg.back

/-! ### fgets-style line splitting -/

/-- One `fgets(line, cap+1, fp)`: read up to `cap` characters, stopping
after a newline; returns the line and the remaining stream. -/
def fgets1 : Nat → List Char → List Char × List Char
  | 0, rest => ([], rest)
  | _ + 1, [] => ([], [])
  | n + 1, c :: rest =>
    if c = '\n' then ([c], rest)
    else
      let p := fgets1 n rest
      (c :: p.1, p.2)

/-- The `while (fgets(line, sizeof(line), fp) != NULL)` loops: split the
stream into fgets lines (fuel: each round consumes at least one
character). -/
def fgetsLines : Nat → Nat → List Char → List (List Char)
  | 0, _, _ => []
  | fuel + 1, cap, content =>
    match content with
    | [] => []
    | c :: rest =>
      let p := fgets1 cap (c :: rest)
      p.1 :: fgetsLines fuel cap p.2

/-- All fgets lines of a file for a `char line[PATH_MAX]` buffer. -/
def fileLines (content : List Char) : List (List Char) :=
  fgetsLines (content.length + 1) (PATH_MAX - 1) content

/-! ### font key/value merging (crossfs.c font_merge_kv, insert_h_kv) -/

def FONTS_DIR : List Char := cs "fonts.dir"
def FONTS_ALIAS : List Char := cs "fonts.alias"

/-- Separator lookup in a fonts line: `strchr(line, ' ')`, falling back to
`strchr(line, '\t')`. -/
def fontSepIdx (line : List Char) : Option Nat :=
  match line.findIdx? (fun c => c = ' ') with
  | some i => some i
  | none => line.findIdx? (fun c => c = '\t')

def isSpTab (c : Char) : Bool := c = ' ' ∨ c = '\t'

/-- One iteration of the `font_merge_kv` line loop: skip `!` comments and
separator-free lines; otherwise the key is the part before the first
separator and the value starts after the whole separator run (the do-while
advancing `sep`).  fgets keeps the trailing newline, so the value ends in
`'\n'` for every newline-terminated line. -/
def fontLineKv (line : List Char) : Option (List Char × List Char) :=
  if line.head? = some '!' then none
  else
    match fontSepIdx line with
    | none => none
    | some i => some (line.take i, (line.drop (i + 1)).dropWhile isSpTab)

/-- crossfs.c `insert_h_kv`: a key already in the table keeps its
pre-existing value (first writer wins); malloc failure is not modelled.
uthash iterates entries in insertion order, modelled by appending. -/
def insert_h_kv (kvs : List (List Char × List Char)) (k v : List Char) :
    List (List Char × List Char) :=
  if kvs.any (fun p => p.1 == k) then kvs else kvs ++ [(k, v)]

/-- The per-file line loop of `font_merge_kv`. -/
def fontLinesMerge : List (List Char × List Char) → List (List Char) →
    List (List Char × List Char)
  | kvs, [] => kvs
  | kvs, line :: rest =>
    match fontLineKv line with
    | none => fontLinesMerge kvs rest
    | some kv => fontLinesMerge (insert_h_kv kvs kv.1 kv.2) rest

/-- The back-entry loop of `font_merge_kv`: every openable backing
instance of the file contributes its lines; `rv` flips from -ENOENT to 0
on the first successful fopen. -/
def fontMergeLoop (env : FsEnv) (cpath ipath : List Char) :
    List BackEntry → Bool → List (List Char × List Char) →
      Bool × List (List Char × List Char)
  | [], opened, kvs => (opened, kvs)
  | b :: rest, opened, kvs =>
    match calc_bpath cpath b.lpath ipath with
    | none => fontMergeLoop env cpath ipath rest opened kvs
    | some bpath =>
      match env.fopenB b bpath with
      | .error _ => fontMergeLoop env cpath ipath rest opened kvs
      | .ok content =>
        fontMergeLoop env cpath ipath rest true
          (fontLinesMerge kvs (fileLines content))

/-- crossfs.c `font_merge_kv`. -/
def font_merge_kv (env : FsEnv) (cfg : CfgEntry) (ipath : List Char) :
    Except Int (List (List Char × List Char)) :=
  match fontMergeLoop env cfg.cpath ipath cfg.back false [] with
  | (false, _) => .error ENOENT
  | (true, kvs) => .ok kvs

/-! ### getattr_ini and getattr_back (crossfs.c) -/

def STRAT_PATH : List Char := cs "/bedrock/bin/strat"
def STRATA_ROOT : List Char := cs "/bedrock/strata/"

/-- crossfs.c `ini_inject_strat_str`. -/
def iniInjectStratStr : List (List Char) :=
  [cs "Exec=", cs "ExecReload=", cs "ExecStart=", cs "ExecStartPost=",
    cs "ExecStartPre=", cs "ExecStop=", cs "ExecStopPost="]

/-- crossfs.c `ini_expand_path_str`. -/
def iniExpandPathStr : List (List Char) :=
  [cs "Icon=", cs "Path=", cs "TryExec="]

/-- The two prefix scans of the `getattr_ini` line loop: the first loop
breaks after its first matching prefix (the `Exec*=` prefixes are
pairwise prefix-free, so `any` adds the same single contribution); the
second adds for every matching prefix followed by '/'. -/
def iniLineExtra (name : List Char) (ln : List Char) : Int :=
  (if iniInjectStratStr.any (fun p => p.isPrefixOf ln) then
    ((STRAT_PATH.length : Int) + 1 + name.length + 1)
  else 0) +
  (iniExpandPathStr.map (fun p =>
    if p.isPrefixOf ln ∧ ln[p.length]? = some '/' then
      ((STRATA_ROOT.length : Int) + name.length)
    else 0)).sum

/-- crossfs.c `getattr_ini`.  Returns the updated stat buffer and the
value left in `*rv` (0 at both call sites on entry; the function only
writes `*rv` on failure).  The C error check after `loc_first_bpath`
compares the pointer `rv` instead of `*rv` and is dead; the subsequent
fopen of the indeterminate bpath is undefined, collapsed here to a failed
lookup reported as -ENOENT.  On success only `st_size` changes. -/
def getattr_ini (env : FsEnv) (localName : List Char) (cfg : CfgEntry)
    (ipath : List Char) (stbuf : FStat) : FStat × Int :=
  if !(S_ISREG stbuf.mode) then (stbuf, 0)
  else
    match loc_first_bpath env cfg ipath with
    | none => (stbuf, -ENOENT)
    | some (back, bpath) =>
      match env.fopenB back bpath with
      | .error e => (stbuf, -e)
      | .ok content =>
        let name := deref localName back
        ({ stbuf with
            size := stbuf.size +
              ((fileLines content).map (iniLineExtra name)).sum }, 0)

/-- The final `st_mode &= ~(S_ISUID | S_ISGID | S_ISVTX | S_IWUSR |
S_IWGRP | S_IWOTH)` of crossfs.c `getattr_back` (mode_t is 32 bits, so
the complement is taken within 32 bits). -/
def getattrModeMask (m : Nat) : Nat :=
  m &&& (0xFFFFFFFF ^^^
    (S_ISUID ||| S_ISGID ||| S_ISVTX ||| S_IWUSR ||| S_IWGRP ||| S_IWOTH))

/-- The filter dispatch of crossfs.c `getattr_back`, between the initial
`stat_first_bpath` and the final mode mask: the resulting stat buffer and
`rv`.  In the FONT arm `size_t count = 0` is never incremented (the
`/* TODO: populate count line */` branch), so the fonts.dir count line is
sized as `snprintf("%lu\n", 0)`, two bytes. -/
def getattrBackBranch (env : FsEnv) (localName : List Char)
    (cfg : CfgEntry) (ipath : List Char) (stv : FStat) : FStat × Int :=
  match cfg.filter with
  | .bin | .binRestrict =>
    if !(S_ISDIR stv.mode) then
      ({ stv with size := env.bouncerSize
                  mode := stv.mode ||| (S_IRUSR ||| S_IRGRP ||| S_IROTH) }, 0)
    else (stv, 0)
  | .service =>
    match loc_first_bpath env cfg ipath with
    | none => (stv, -ENOENT)
    | some (back, bpath) =>
      if (firstOcc bpath (cs "systemd")).isSome then
        getattr_ini env localName cfg ipath stv
      else if is_parent (cs "/etc/sv") bpath then
        (⟨S_IFREG ||| 0o400, env.serviceTextLen back bpath, 1⟩, 0)
      else (stv, 0)
  | .ini => getattr_ini env localName cfg ipath stv
  | .font =>
    match lastSlashIdx? ipath with
    | none => (stv, 0)
    | some si =>
      if ipath.drop (si + 1) ≠ FONTS_DIR ∧
          ipath.drop (si + 1) ≠ FONTS_ALIAS then (stv, 0)
      else
        match font_merge_kv env cfg ipath with
        | .error e => (stv, -e)
        | .ok kvs =>
          let s0 : Int :=
            (kvs.map (fun kv => (kv.1.length : Int) + 1 + kv.2.length)).sum
          if ipath.drop (si + 1) = FONTS_DIR then
            ({ stv with
                size := s0 + ((Nat.toDigits 10 0).length + 1 : Nat) }, 0)
          else ({ stv with size := s0 }, 0)
  | .pass => (stv, 0)

/-- crossfs.c `getattr_back`: stat the first bpath (an error returns
-errno), apply the filter dispatch, mask the mode, and return the stat
buffer when `rv` stayed non-negative. -/
def getattr_back (env : FsEnv) (localName : List Char) (cfg : CfgEntry)
    (ipath : List Char) : Except Int FStat :=
  match stat_first_bpath env cfg ipath with
  | .error e => .error e
  | .ok stv =>
    let res := getattrBackBranch env localName cfg ipath stv
    if res.2 < 0 then .error (-res.2)
    else .ok { res.1 with mode := getattrModeMask res.1.mode }

/-! ### read_back's FONT arm and m_open's BACK arm (crossfs.c) -/

/-- The output-assembly state of `read_back`: the bytes written so far
(`buf[0..wrote)`) and the remaining input bytes to skip (`off`). -/
structure CatSt where
  out : List Char
  off : Nat
deriving DecidableEq, Repr, Inhabited

/-- crossfs.c `strcatoff`: append `str` to the buffer, skipping `off`
input bytes first and writing at most `max - wrote` bytes. -/
def strcatoff (st : CatSt) (str : List Char) (max : Nat) : CatSt :=
  if st.off ≥ str.length then { st with off := st.off - str.length }
  else
    { out := st.out ++
        (str.drop st.off).take (min (str.length - st.off)
          (max - st.out.length))
      off := 0 }

/-- Byte-wise C string comparison (strcmp < 0). -/
def strLt : List Char → List Char → Bool
  | [], [] => false
  | [], _ :: _ => true
  | _ :: _, [] => false
  | c :: xs, d :: ys =>
    if c.toNat < d.toNat then true
    else if d.toNat < c.toNat then false
    else strLt xs ys

/-- Ordered insertion by key. -/
def insertByKey (p : List Char × List Char) :
    List (List Char × List Char) → List (List Char × List Char)
  | [] => [p]
  | q :: rest =>
    if strLt p.1 q.1 then p :: q :: rest else q :: insertByKey p rest

/-- `HASH_SORT(kvs, vstrcmp)`: sort the entries by key under strcmp.
`insert_h_kv` keeps keys distinct, so every comparison sort produces this
same list; insertion sort stands in for uthash's merge sort. -/
def sortByKey : List (List Char × List Char) →
    List (List Char × List Char)
  | [] => []
  | p :: rest => insertByKey p (sortByKey rest)

/-- The sorted key/value output loop of `read_back`'s FONT arm:
`strcatoff` the key, a tab, and the value for every entry. -/
def catKvs (max : Nat) : CatSt → List (List Char × List Char) → CatSt
  | st, [] => st
  | st, kv :: rest =>
    catKvs max
      (strcatoff (strcatoff (strcatoff st kv.1 max) ['\t'] max) kv.2 max)
      rest

/-- crossfs.c `read_back`, FONT filter arm: non-merged paths fall through
to `read_pass` (abstracted by the oracle); fonts.dir / fonts.alias paths
merge every backing instance and return the assembled bytes (`rv =
wrote`).  For fonts.dir the count line uses the live `HASH_COUNT`, and the
snprintf result is guarded by `s >= (int)sizeof(buf)` where `buf` is the
`char *` destination parameter, i.e. against sizeof(char *) = 8. -/
def read_back_font (env : FsEnv) (cfg : CfgEntry) (ipath : List Char)
    (size : Nat) (offset : Nat) : Int × List Char :=
  match lastSlashIdx? ipath with
  | none => env.readPass ipath size offset
  | some si =>
    if ipath.drop (si + 1) ≠ FONTS_DIR ∧
        ipath.drop (si + 1) ≠ FONTS_ALIAS then
      env.readPass ipath size offset
    else
      match font_merge_kv env cfg ipath with
      | .error e => (-e, [])
      | .ok kvs =>
        let st0 : CatSt := ⟨[], offset⟩
        if ipath.drop (si + 1) = FONTS_DIR then
          let cnt := Nat.toDigits 10 kvs.length ++ ['\n']
          if cnt.length ≥ 8 then (-EINVAL, [])
          else
            let st2 := catKvs size (strcatoff st0 cnt size) (sortByKey kvs)
            ((st2.out.length : Int), st2.out)
        else
          let st2 := catKvs size st0 (sortByKey kvs)
          ((st2.out.length : Int), st2.out)

/-- crossfs.c `m_open`, CLASS_BACK arm: open the first bpath with the
request flags; for a BIN / BIN_RESTRICT entry an O_RDONLY request whose
open failed with EACCES still succeeds (the bouncer must be readable);
otherwise open failures return -errno and non-read-only access -EROFS.
`flags &&& 3` is `fi->flags & O_ACCMODE`. -/
def m_open_back (env : FsEnv) (cfg : CfgEntry) (ipath : List Char)
    (flags : Nat) : Int :=
  match open_first_bpath env cfg ipath flags with
  | .error e =>
    if (cfg.filter = .bin ∨ cfg.filter = .binRestrict) ∧ flags &&& 3 = 0 ∧
        e = EACCES then 0
    else -e
  | .ok _ => if flags &&& 3 ≠ 0 then -EROFS else 0

/-! ### Bit lemmas for the getattr mode mask -/

/-- Helper: bits just ORed in survive an AND with themselves. -/
theorem or_and_self_nat (x r : Nat) : (x ||| r) &&& r = r := by
  apply Nat.eq_of_testBit_eq
  intro i
  simp only [Nat.testBit_and, Nat.testBit_or]
  cases x.testBit i <;> cases r.testBit i <;> rfl

/-- Helper: the getattr mask clears the setuid/setgid/sticky/write
bits of any mode. -/
theorem getattrModeMask_clears (m : Nat) :
    getattrModeMask m &&&
      (S_ISUID ||| S_ISGID ||| S_ISVTX ||| S_IWUSR ||| S_IWGRP |||
        S_IWOTH) = 0 := by
  unfold getattrModeMask
  rw [Nat.and_assoc]
  have h : ((0xFFFFFFFF ^^^
      (S_ISUID ||| S_ISGID ||| S_ISVTX ||| S_IWUSR ||| S_IWGRP |||
        S_IWOTH)) &&&
      (S_ISUID ||| S_ISGID ||| S_ISVTX ||| S_IWUSR ||| S_IWGRP |||
        S_IWOTH)) = 0 := by decide
  rw [h, Nat.and_zero]

/-- Helper: the getattr mask does not clear the read bits ORed in by the
BIN arm. -/
theorem getattrModeMask_keeps_read (m : Nat) :
    getattrModeMask (m ||| (S_IRUSR ||| S_IRGRP ||| S_IROTH)) &&&
      (S_IRUSR ||| S_IRGRP ||| S_IROTH) =
      S_IRUSR ||| S_IRGRP ||| S_IROTH := by
  unfold getattrModeMask
  rw [Nat.and_assoc]
  have h : ((0xFFFFFFFF ^^^
      (S_ISUID ||| S_ISGID ||| S_ISVTX ||| S_IWUSR ||| S_IWGRP |||
        S_IWOTH)) &&& (S_IRUSR ||| S_IRGRP ||| S_IROTH)) =
      S_IRUSR ||| S_IRGRP ||| S_IROTH := by decide
  rw [h]
  exact or_and_self_nat m (S_IRUSR ||| S_IRGRP ||| S_IROTH)

/-- C5: for a CLASS_BACK getattr on a BIN or BIN_RESTRICT entry whose
first non-ENOENT backing stat succeeds with a non-directory, the result
carries the bouncer binary's size and has S_IRUSR, S_IRGRP, S_IROTH set;
and every successful CLASS_BACK getattr result, for any filter, has
S_ISUID, S_ISGID, S_ISVTX, S_IWUSR, S_IWGRP and S_IWOTH cleared. -/
theorem getattr_back_bin_and_mask (env : FsEnv) (localName : List Char)
    (cfg : CfgEntry) (ipath : List Char) (res : FStat)
    (hres : getattr_back env localName cfg ipath = .ok res) :
    (∀ stv, (cfg.filter = .bin ∨ cfg.filter = .binRestrict) →
      stat_first_bpath env cfg ipath = .ok stv →
      S_ISDIR stv.mode = false →
      res.size = env.bouncerSize ∧
      res.mode &&& (S_IRUSR ||| S_IRGRP ||| S_IROTH) =
        S_IRUSR ||| S_IRGRP ||| S_IROTH) ∧
    res.mode &&&
      (S_ISUID ||| S_ISGID ||| S_ISVTX ||| S_IWUSR ||| S_IWGRP |||
        S_IWOTH) = 0 := by
  unfold getattr_back at hres
  cases hstat : stat_first_bpath env cfg ipath with
  | error e => rw [hstat] at hres; simp at hres
  | ok stv0 =>
    rw [hstat] at hres
    dsimp only at hres
    have hnb : ¬ (getattrBackBranch env localName cfg ipath stv0).2 < 0 := by
      intro hb
      rw [if_pos hb] at hres
      simp at hres
    rw [if_neg hnb] at hres
    have hkey := (Except.ok.inj hres).symm
    constructor
    · intro stv hfil hstat2 hdir
      have hstv : stv0 = stv := Except.ok.inj hstat2
      subst hstv
      unfold getattrBackBranch at hkey
      rcases hfil with h | h <;>
        · rw [h] at hkey
          dsimp only at hkey
          simp only [hdir, Bool.not_false, if_true] at hkey
          constructor
          · rw [hkey]
          · rw [hkey]
            exact getattrModeMask_keeps_read stv0.mode
    · rw [hkey]
      exact getattrModeMask_clears
        (getattrBackBranch env localName cfg ipath stv0).1.mode

/-- A concrete backing environment for the C5 witness: one backing file,
mode 0o100755, bouncer size 999. -/
def c5Env : FsEnv :=
  { statB := fun _ _ => .ok ⟨0o100755, 1234, 1⟩
    existsB := fun _ _ => true
    fopenB := fun _ _ => .error EACCES
    openB := fun _ _ _ => .ok 3
    bouncerSize := 999
    serviceTextLen := fun _ _ => 0
    readPass := fun _ _ _ => (0, []) }

/-- A BIN cfg entry mapping /bin to /usr/bin of stratum a. -/
def c5Cfg : CfgEntry := ⟨.bin, cs "/bin", [⟨cs "/usr/bin", cs "a", false⟩]⟩

/-- Witness for C5 at a concrete input: getattr of /bin/vim returns mode
0o100555 (read bits kept, write bit cleared) and the bouncer size 999. -/
theorem getattr_back_bin_and_mask_witness :
    getattr_back c5Env (cs "x") c5Cfg (cs "/bin/vim") =
      .ok (FStat.mk 33133 999 1) ∧
    ((FStat.mk 33133 999 1).size = c5Env.bouncerSize ∧
      (FStat.mk 33133 999 1).mode &&& (S_IRUSR ||| S_IRGRP ||| S_IROTH) =
        S_IRUSR ||| S_IRGRP ||| S_IROTH) ∧
    (FStat.mk 33133 999 1).mode &&&
      (S_ISUID ||| S_ISGID ||| S_ISVTX ||| S_IWUSR ||| S_IWGRP |||
        S_IWOTH) = 0 :=
  ⟨by decide,
    (getattr_back_bin_and_mask c5Env (cs "x") c5Cfg (cs "/bin/vim")
          (FStat.mk 33133 999 1) (by decide)).1
      (FStat.mk 0o100755 1234 1) (Or.inl rfl) (by decide) (by decide),
    (getattr_back_bin_and_mask c5Env (cs "x") c5Cfg (cs "/bin/vim")
          (FStat.mk 33133 999 1) (by decide)).2⟩

/-- The backing content for the C4 divergence: ten key/value lines. -/
def c4Content : List Char :=
  cs "k0 v\nk1 v\nk2 v\nk3 v\nk4 v\nk5 v\nk6 v\nk7 v\nk8 v\nk9 v\n"

/-- A FONT cfg entry mapping /f to /x of stratum a. -/
def c4Cfg : CfgEntry := ⟨.font, cs "/f", [⟨cs "/x", cs "a", false⟩]⟩

/-- A concrete backing environment whose one fonts.dir instance holds ten
entries. -/
def c4Env : FsEnv :=
  { statB := fun _ _ => .ok ⟨0o100644, 100, 1⟩
    existsB := fun _ _ => true
    fopenB := fun _ _ => .ok c4Content
    openB := fun _ _ _ => .ok 3
    bouncerSize := 0
    serviceTextLen := fun _ _ => 0
    readPass := fun _ _ _ => (0, []) }

/-- C4: for a fonts.dir ipath under a FONT entry, getattr's st_size and
the complete read contents diverge once ten or more entries merge:
getattr never populates `count` (the TODO branch), sizing the count line
as "0\n" (2 bytes, giving 52), while read emits the live HASH_COUNT line
"10\n" (3 bytes, giving the 53-byte contents below). -/
theorem fonts_dir_getattr_read_divergence :
    (getattr_back c4Env (cs "x") c4Cfg (cs "/f/fonts.dir")).map
      (fun stv => stv.size) = .ok 52 ∧
    read_back_font c4Env c4Cfg (cs "/f/fonts.dir") 4096 0 =
      (53,
        cs "10\nk0\tv\nk1\tv\nk2\tv\nk3\tv\nk4\tv\nk5\tv\nk6\tv\nk7\tv\nk8\tv\nk9\tv\n") ∧
    (52 : Int) ≠ 53 := by decide

/-- C10: for a CLASS_BACK open on a BIN or BIN_RESTRICT entry with access
mode O_RDONLY, an EACCES failure from opening the first existing backing
file still returns success. -/
theorem m_open_back_bin_rdonly_eacces (env : FsEnv) (cfg : CfgEntry)
    (ipath : List Char) (flags : Nat)
    (hfil : cfg.filter = .bin ∨ cfg.filter = .binRestrict)
    (hacc : flags &&& 3 = 0)
    (hopen : open_first_bpath env cfg ipath flags = .error EACCES) :
    m_open_back env cfg ipath flags = 0 := by
  unfold m_open_back
  rw [hopen]
  exact if_pos ⟨hfil, hacc, rfl⟩

/-- A concrete backing environment whose opens all fail with EACCES. -/
def c10Env : FsEnv :=
  { statB := fun _ _ => .ok ⟨0o100700, 5, 1⟩
    existsB := fun _ _ => true
    fopenB := fun _ _ => .error EACCES
    openB := fun _ _ _ => .error EACCES
    bouncerSize := 999
    serviceTextLen := fun _ _ => 0
    readPass := fun _ _ _ => (0, []) }

/-- A BIN cfg entry for the C10 witness. -/
def c10Cfg : CfgEntry :=
  ⟨.bin, cs "/bin", [⟨cs "/usr/bin", cs "a", false⟩]⟩

/-- Witness for C10 at a concrete input: O_RDONLY (flags 0) open of
/bin/vim whose backing open fails with EACCES returns 0. -/
theorem m_open_back_bin_rdonly_eacces_witness :
    (c10Cfg.filter = .bin ∨ c10Cfg.filter = .binRestrict) ∧
    (0 : Nat) &&& 3 = 0 ∧
    open_first_bpath c10Env c10Cfg (cs "/bin/vim") 0 = .error EACCES ∧
    m_open_back c10Env c10Cfg (cs "/bin/vim") 0 = 0 :=
  ⟨Or.inl rfl, by decide, by decide,
    m_open_back_bin_rdonly_eacces c10Env c10Cfg (cs "/bin/vim") 0
      (Or.inl rfl) (by decide) (by decide)⟩

/-! ## etcfs configuration commands (etcfs.c cfg_add_override)

etcfs keeps a global list, an override list and the synchronously
maintained `cfg_stat.st_size`.  `cfg_add_override` tokenizes with sscanf
`"%s%c%s%c%s%c%s%c"`; for an inject override it opens, fstats and reads
the content source file (abstracted by the `contentFile` oracle; an
unopenable path makes the `fstat(fd=-1)` fail), jumping to
`free_and_abort_enomem`, which only frees locals and returns -EINVAL. -/

/-- The eight tokens scanned by etcfs `cfg_add_override` / `cfg_rm_override`. -/
structure OvTokens where
  cmdTok : List Char
  sp1 : Char
  typeTok : List Char
  sp2 : Char
  pathTok : List Char
  sp3 : Char
  contentTok : List Char
  newlineTok : Char
deriving DecidableEq, Repr

/-- The full `"%s%c%s%c%s%c%s%c"` scan (8 conversions or failure). -/
def parse8 (s0 : List Char) : Option OvTokens :=
  (readTok s0).bind fun p1 =>
  (readCh p1.2).bind fun q1 =>
  (readTok q1.2).bind fun p2 =>
  (readCh p2.2).bind fun q2 =>
  (readTok q2.2).bind fun p3 =>
  (readCh p3.2).bind fun q3 =>
  (readTok q3.2).bind fun p4 =>
  (readCh p4.2).map fun q4 =>
    OvTokens.mk p1.1 q1.1 p2.1 q2.1 p3.1 q3.1 p4.1 q4.1

/-- etcfs.c `enum o_type`. -/
inductive OType
  | symlink
  | directory
  | inject
deriving DecidableEq, BEq, Repr, Inhabited

/-- etcfs.c `o_type_str`. -/
def oTypeStr : OType → List Char
  | .symlink => cs "symlink"
  | .directory => cs "directory"
  | .inject => cs "inject"

/-- The linear scan of `o_type_str` mapping the type token to an
`enum o_type`. -/
def lookupOType (tok : List Char) : Option OType :=
  [OType.symlink, OType.directory, OType.inject].find?
    (fun o => oTypeStr o == tok)

/-- etcfs.c `struct override`. -/
structure EOverride where
  path : List Char
  otype : OType
  content : List Char
  injectBytes : List Char
deriving DecidableEq, Repr, Inhabited

/-- The etcfs configuration state guarded by cfg_lock. -/
structure EtcCfg where
  globals : List (List Char)
  overrides : List EOverride
  size : Int
deriving DecidableEq, Repr, Inhabited

/-- Oracle for opening, fstat'ing and reading the content source file of
an inject override (`open(buf_content, O_RDONLY)` + `fstat` + `read`). -/
structure EtcEnv where
  contentFile : List Char → Except Int (List Char)

/-- Embeds etcfs.c `cfg_add_override`.  malloc/realloc failures are not
modelled; the `(void)uninject(...)` of a replaced inject override acts on
the underlying /etc file, outside this configuration state. -/
def cfg_add_override (env : EtcEnv) (st : EtcCfg) (buf : List Char) :
    Int × EtcCfg :=
  if buf.length > PIPE_BUF - 1 then (-ENAMETOOLONG, st)
  else
    match parse8 buf with
    | none => (-EINVAL, st)
    | some t =>
      if t.cmdTok ≠ cs "add_override" ∨ t.sp1 ≠ ' ' ∨ t.sp2 ≠ ' ' ∨
          t.sp3 ≠ ' ' ∨ t.newlineTok ≠ '\n' ∨ '/' ∉ t.pathTok then
        (-EINVAL, st)
      else
        match lookupOType t.typeTok with
        | none => (-EINVAL, st)
        | some ty =>
          match (match ty with
            | OType.inject => (env.contentFile t.contentTok).map some
            | _ => .ok none : Except Int (Option (List Char))) with
          | .error _ => (-EINVAL, st)
          | .ok injOpt =>
            match (match ty with
              | OType.inject =>
                idxOf? (fun o => o.path == t.pathTok && o.otype == ty)
                  st.overrides
              | _ => none : Option Nat) with
            | some i =>
              let upd := { st.overrides.getD i default with
                injectBytes := injOpt.getD [] }
              (0, { st with overrides := st.overrides.set i upd })
            | none =>
              if st.overrides.any (fun o => o.path == t.pathTok) then
                (0, st)
              else
                ((buf.length : Int),
                  ⟨st.globals,
                    st.overrides ++
                      [⟨t.pathTok, ty, t.contentTok, injOpt.getD []⟩],
                    st.size + ((9 : Int) + (oTypeStr ty).length + 1 +
                      t.pathTok.length + 1 + t.contentTok.length + 1)⟩)

/-- C9: a write of an `add_override inject <path> <content>` command
whose content source file cannot be opened or stat'd returns -EINVAL and
leaves the configuration state (globals, overrides, reported size)
completely unchanged. -/
theorem cfg_add_override_bad_content_unchanged (env : EtcEnv)
    (st : EtcCfg) (buf : List Char) (t : OvTokens) (e : Int)
    (hlen : ¬ buf.length > PIPE_BUF - 1)
    (hp : parse8 buf = some t)
    (hty : lookupOType t.typeTok = some OType.inject)
    (hcf : env.contentFile t.contentTok = .error e) :
    cfg_add_override env st buf = (-EINVAL, st) := by
  unfold cfg_add_override
  rw [if_neg hlen, hp]
  dsimp only
  by_cases hsan : t.cmdTok ≠ cs "add_override" ∨ t.sp1 ≠ ' ' ∨
      t.sp2 ≠ ' ' ∨ t.sp3 ≠ ' ' ∨ t.newlineTok ≠ '\n' ∨ '/' ∉ t.pathTok
  · rw [if_pos hsan]
  · rw [if_neg hsan, hty]
    dsimp only
    rw [hcf]
    dsimp only [Except.map]

/-- Oracle for the C9 witness: no content source file can be opened. -/
def c9Env : EtcEnv := ⟨fun _ => .error ENOENT⟩

/-- A well-formed inject add_override command for the C9 witness. -/
def c9Buf : List Char := cs "add_override inject /etc/hosts /missing\n"

/-- A nonempty starting state for the C9 witness. -/
def c9St : EtcCfg := ⟨[cs "/etc/profile"], [], 9⟩

/-- Witness for C9 at a concrete input: the command parses, names the
inject type, its content file fails to open, and the state is returned
unchanged with -EINVAL. -/
theorem cfg_add_override_bad_content_unchanged_witness :
    (¬ c9Buf.length > PIPE_BUF - 1) ∧
    parse8 c9Buf = some (OvTokens.mk (cs "add_override") ' '
      (cs "inject") ' ' (cs "/etc/hosts") ' ' (cs "/missing") '\n') ∧
    lookupOType (cs "inject") = some OType.inject ∧
    c9Env.contentFile (cs "/missing") = .error ENOENT ∧
    cfg_add_override c9Env c9St c9Buf = (-EINVAL, c9St) :=
  ⟨by decide, by decide, by decide, by decide,
    cfg_add_override_bad_content_unchanged c9Env c9St c9Buf
      (OvTokens.mk (cs "add_override") ' ' (cs "inject") ' '
        (cs "/etc/hosts") ' ' (cs "/missing") '\n') ENOENT
      (by decide) (by decide) (by decide) (by decide)⟩

end Bedrock
